import Mathlib

/-!
# Lemmingo: dictionary lookup with stemming and spell-checking fallbacks

A shallow embedding of `lemmingo.go` and `tagset/tagset.go`.

* Go strings are Lean strings; a Go `map[string]string` is a partial function
  on strings (`Dict`), with `Dict.set` for `m[k] = v` and `Dict.index` for
  `v, ok := m[k]`.
* A Go `error` is `GoError` (`none` is `nil`); a run that panics is the
  `Except.error` side of `Except Panic`.
* Everything the package imports (`strings`, `snowball`, `aspell`,
  `x/text/language`, `os`, `bufio`, `runtime`) is a field of `Env`.
* `Lemma` and `Stem` run in `Run`, which records the dictionary lookups and the
  backend calls in order, so that "is not invoked" and "before the lookup" are
  statements about the recorded trace.
-/

namespace lemmingo

/-! ## Go values -/

/-- Go `error` value: `none` is `nil`, `some msg` is an error whose `Error()` is `msg`. -/
abbrev GoError := Option String

/-- Ways a run aborts instead of returning to its caller. -/
inductive Panic where
  | nilDeref
  | indexOutOfRange
  | err (msg : String)
  deriving DecidableEq, Repr

/-- Go `map[string]string`, read-only view: the value stored under a key, if any. -/
abbrev Dict := String → Option String

/-- Result of `make(map[string]string)`, also the behaviour of a nil map on reads. -/
def Dict.empty : Dict := fun _ => none

/-- Assignment `m[k] = v`. -/
def Dict.set (d : Dict) (k v : String) : Dict :=
  fun k' => if k' = k then some v else d k'

/-- Two-valued index expression `v, ok := m[k]`: a missing key gives `("", false)`. -/
def Dict.index (d : Dict) (k : String) : String × Bool :=
  ((d k).getD "", (d k).isSome)

/-- Splitting a character list at every occurrence of `sep`; the result is never empty. -/
def splitChars (sep : Char) : List Char → List (List Char)
  | [] => [[]]
  | c :: cs =>
    if c = sep then [] :: splitChars sep cs
    else
      match splitChars sep cs with
      | [] => [[c]]
      | f :: fs => (c :: f) :: fs

/-- Go `strings.Split(s, sep)` for a one-character separator such as `" "`. -/
def Split (s : String) (sep : Char) : List String :=
  (splitChars sep s.data).map String.mk

/-! ## The outside world -/

/-- Snowball stemmer handle (`*snowball.Stemmer`). -/
structure Stemmer where
  Stem : String → String

/-- Aspell speller handle (`aspell.Speller`). -/
structure Speller where
  Check : String → Bool
  Suggest : String → List String

/-- What `bufio.Scanner` yields for an opened file: the lines returned by
`scanner.Text()` in order, and `scanner.Err()` after the last of them. -/
structure File where
  lines : List String
  scanErr : GoError

/-- Everything `lemmingo.go` and `tagset.go` call outside the repository. -/
structure Env where
  /-- Go `strings.ToLower`. -/
  ToLower : String → String
  /-- Go `strings.ToUpper`. -/
  ToUpper : String → String
  /-- Base language of a tag: `language.Make(tag).Base()` rendered with `String()`. -/
  langBase : String → String
  /-- English name of the base language of a tag: `display.English.Languages().Name(base)`. -/
  langName : String → String
  /-- Go `snowball.New(lang)`. -/
  snowballNew : String → Except String Stemmer
  /-- Go `aspell.NewSpeller` with option `lang`. -/
  aspellNew : String → Except String Speller
  /-- Go `runtime.NumCPU()`. -/
  NumCPU : Nat
  /-- Go `filepath.IsAbs`. -/
  IsAbs : String → Bool
  /-- Go `filepath.Join` of two elements. -/
  Join : String → String → String
  /-- Outcome of `installDicts()`: the per-user dictionary directory, or an error. -/
  installDicts : Except String String
  /-- Go `os.Open` followed by scanning the file line by line. -/
  Open : String → Except String File

/-! ## Package `tagset` -/

namespace tagset

/-- Penn Treebank tags, `pennEn`. -/
def pennEn : List (String × String) :=
  [ ("CC", "CONJ"), ("CD", "NUM"), ("DT", "DET"), ("EX", "DET"), ("FW", "X"),
    ("IN", "ADP"), ("JJ", "ADJ"), ("JJR", "ADJ"), ("JJS", "ADJ"), ("LS", "X"),
    ("MD", "VERB"), ("NN", "NOUN"), ("NNS", "NOUN"), ("NNP", "NOUN"), ("NNPS", "NOUN"),
    ("PDT", "DET"), ("POS", "PRT"), ("PRP", "PRON"), ("PRP$", "PRON"), ("RB", "ADV"),
    ("RBR", "ADV"), ("RBS", "ADV"), ("RP", "PRT"), ("SYM", "X"), ("TO", "PRT"),
    ("UH", "X"), ("VB", "VERB"), ("VBZ", "VERB"), ("VBP", "VERB"), ("VBD", "VERB"),
    ("VBN", "VERB"), ("VBG", "VERB"), ("WDT", "DET"), ("WP", "PRON"), ("WP$", "PRON"),
    ("WRB", "ADV"), ("(", "."), (")", "."), (",", "."), (":", "."), (".", "."),
    ("''", "."), ("``", "."), ("#", "."), ("$", ".") ]

/-- FreeLing tags, `freelingEn`. -/
def freelingEn : List (String × String) :=
  [ ("CC", "CONJ"), ("DT", "DET"), ("DT+MD", "DET"), ("DT+VB", "DET"), ("DT+VBD/MD", "DET"),
    ("EX", "DET"), ("IN", "ADP"), ("JJ", "ADJ"), ("JJR", "ADJ"), ("JJS", "ADJ"),
    ("MD", "VERB"), ("MD+RB", "VERB"), ("MD+RB+VBP", "VERB"), ("MD+VB", "VERB"),
    ("NN", "NOUN"), ("NNS", "NOUN"), ("POS", "PRT"), ("PRP", "PRON"), ("PRP$", "PRON"),
    ("PRP+DT", "PRON"), ("PRP+MD", "PRON"), ("PRP+MD+RB", "PRON"),
    ("PRP+MD+RB+VBP", "PRON"), ("PRP+MD+VBP", "PRON"), ("PRP+VB", "PRON"),
    ("PRP+VBD/MD", "PRON"), ("PRP+VBP", "PRON"), ("RB", "ADV"), ("RB+MD", "ADV"),
    ("RB+VBD/MD", "ADV"), ("RB+VBZ", "ADV"), ("RBR", "ADV"), ("RBS", "ADV"), ("RP", "PRT"),
    ("TO", "PRT"), ("UH", "X"), ("VB", "VERB"), ("VB+PRP", "VERB"), ("VB+RB", "VERB"),
    ("VBD", "VERB"), ("VBD+RB", "VERB"), ("VBG", "VERB"), ("VBN", "VERB"), ("VBP", "VERB"),
    ("VBP+RB", "VERB"), ("VBZ", "VERB"), ("VBZ+RB", "VERB"), ("WDT", "DET"), ("WP", "PRON"),
    ("WP$", "PRON"), ("WP+MD", "PRON"), ("WP+MD+VBP", "PRON"), ("WP+VB", "PRON"),
    ("WP+VBD/MD", "PRON"), ("WP+VBP", "PRON"), ("WRB", "ADV"), ("WRB+VB", "ADV") ]

/-- Source function `tagsetMapping`: the table registered under
`tagsetName + "_" + languageTag`, or the empty table and an error. -/
def tagsetMapping (tagsetName languageTag : String) : List (String × String) × GoError :=
  let closureMap := [("penn_en", pennEn), ("freeling_en", freelingEn)]
  let mappingKey := tagsetName ++ "_" ++ languageTag
  match closureMap.lookup mappingKey with
  | some mapping => (mapping, none)
  | none => ([], some ("Tagset mapping for `" ++ mappingKey ++ "` was not found!"))

/-- The closure `MapPos` returns for a table: `val, ok := tagset[posTag]`. -/
def lookupIn (tagset : List (String × String)) (posTag : String) : String × Bool :=
  ((tagset.lookup posTag).getD "", (tagset.lookup posTag).isSome)

/-- Source function `MapPos`: panics when no table is registered, otherwise
returns the two-valued lookup in the table. -/
def MapPos (E : Env) (tagsetName languageTag : String) :
    Except Panic (String → String × Bool) :=
  let languageTag := E.langBase languageTag
  match tagsetMapping tagsetName languageTag with
  | (_, some e) => Except.error (Panic.err e)
  | (tagset, none) => Except.ok (lookupIn tagset)

/-- The twelve tags of the Universal Part-of-Speech Tagset, the tagset the head of
`tagset_data.go` names as the target of the tables. -/
def universalTags : List String :=
  ["VERB", "NOUN", "PRON", "ADJ", "ADV", "ADP", "CONJ", "DET", "NUM", "PRT", "X", "."]

end tagset

/-! ## Pools and backends -/

/-- Source type `fallbackPayload`. -/
structure fallbackPayload where
  Lang : String
  Word : String

/-- A `tunny.Pool` as far as this package uses it: its size and the work
function its workers run. A worker that panics takes the run down with it. -/
structure Pool where
  size : Nat
  work : fallbackPayload → Except Panic String

/-- Go `pool.SetSize(n)`. -/
def Pool.SetSize (p : Pool) (n : Nat) : Pool := ⟨n, p.work⟩

/-- Source function `loadStemmer`: `(stemmer, err)` as `snowball.New` gives them;
the stemmer is nil exactly when there is an error. -/
def loadStemmer (E : Env) (stemmerLang : String) : Option Stemmer × GoError :=
  match E.snowballNew stemmerLang with
  | Except.ok stemmer => (some stemmer, none)
  | Except.error e => (none, some e)

/-- Source function `loadSpeller`: the speller is usable exactly when there is no error. -/
def loadSpeller (E : Env) (spellerLang : String) : Option Speller × GoError :=
  match E.aspellNew spellerLang with
  | Except.ok speller => (some speller, none)
  | Except.error e => (none, some e)

/-- Work function of `loadStemmerPool`: loads a stemmer for the payload language,
drops the error, and stems the payload word. -/
def stemmerWork (E : Env) (args : fallbackPayload) : Except Panic String :=
  match (loadStemmer E args.Lang).1 with
  | none => Except.error Panic.nilDeref
  | some stemmer => Except.ok (stemmer.Stem args.Word)

/-- What the work function of `loadSpellerPool` does with a loaded speller: a
correctly spelled word is returned as it is, otherwise the first suggestion,
otherwise the word. -/
def Speller.Correct (speller : Speller) (word : String) : String :=
  if speller.Check word then word
  else
    match speller.Suggest word with
    | [] => word
    | s :: _ => s

/-- Work function of `loadSpellerPool`: loads a speller for the payload language,
drops the error, and corrects the payload word. -/
def spellerWork (E : Env) (args : fallbackPayload) : Except Panic String :=
  match (loadSpeller E args.Lang).1 with
  | none => Except.error Panic.nilDeref
  | some speller => Except.ok (speller.Correct args.Word)

/-- Source function `loadStemmerPool`. -/
def loadStemmerPool (E : Env) (goLimit : Nat) : Pool := ⟨goLimit, stemmerWork E⟩

/-- Source function `loadSpellerPool`. -/
def loadSpellerPool (E : Env) (goLimit : Nat) : Pool := ⟨goLimit, spellerWork E⟩

/-! ## Runs with a trace -/

/-- What a call of `Lemma` or `Stem` does besides returning. -/
inductive Event where
  | lookup (key : String)
  | stem (lang word : String)
  | spell (lang word : String)
  deriving DecidableEq, Repr

/-- A run: the events it performed, in order, and how it ended. -/
structure Run (α : Type) where
  trace : List Event
  out : Except Panic α

/-- A run that returns at once. -/
def Run.pure {α : Type} (a : α) : Run α := ⟨[], Except.ok a⟩

/-- Sequencing: the second run happens only when the first one returns. -/
def Run.bind {α β : Type} (r : Run α) (f : α → Run β) : Run β :=
  match r.out with
  | Except.ok a => ⟨r.trace ++ (f a).trace, (f a).out⟩
  | Except.error p => ⟨r.trace, Except.error p⟩

/-- Go `pool.Process(payload)` through a possibly nil pool pointer, recording `ev`
when a worker is reached. -/
def Process (pool : Option Pool) (ev : Event) (payload : fallbackPayload) : Run String :=
  match pool with
  | none => ⟨[], Except.error Panic.nilDeref⟩
  | some p => ⟨[ev], p.work payload⟩

/-! ## Package `lemmingo` -/

/-- Source type `Lemmingo`; a nil pool pointer is `none`. -/
structure Lemmingo where
  dict : Dict
  stemmerLang : String
  spellerLang : String
  stemmerPool : Option Pool
  spellerPool : Option Pool
  stemmerFallback : Bool
  spellerFallback : Bool
  concurrent : Bool

/-- Method `spellCheck`. -/
def Lemmingo.spellCheck (l : Lemmingo) (word : String) : Run String :=
  Process l.spellerPool (Event.spell l.spellerLang word) ⟨l.spellerLang, word⟩

/-- Method `stem`. -/
def Lemmingo.stem (l : Lemmingo) (word : String) : Run String :=
  Process l.stemmerPool (Event.stem l.stemmerLang word) ⟨l.stemmerLang, word⟩

/-- Method `Stem`. -/
def Lemmingo.Stem (l : Lemmingo) (word : String) : Run (String × GoError) :=
  (l.stem word).bind fun word =>
    if l.spellerFallback = false then Run.pure (word, none)
    else (l.spellCheck word).bind fun word => Run.pure (word, none)

/-- The map read `lmm, ok = l.dict[key]`, recorded in the trace. -/
def Lemmingo.lookup (l : Lemmingo) (key : String) : Run (String × Bool) :=
  ⟨[Event.lookup key], Except.ok (l.dict.index key)⟩

/-- Method `Lemma`. -/
def Lemmingo.Lemma (E : Env) (l : Lemmingo) (word pos : String) :
    Run (String × Bool × GoError) :=
  let word := E.ToLower word
  (if l.stemmerFallback = false ∧ l.spellerFallback = true then l.spellCheck word
   else Run.pure word).bind fun word =>
  (l.lookup (word ++ " " ++ E.ToUpper pos)).bind fun r =>
    let lmm := r.1
    let ok := r.2
    if lmm = "" ∧ l.stemmerFallback = false then
      Run.pure (word, false, some ("Word's (" ++ word ++ ") lemma wasn't found!"))
    else if lmm = "" ∧ l.stemmerFallback = true then
      (l.Stem word).bind fun s =>
        match s.2 with
        | some e => Run.pure (word, false, some e)
        | none => Run.pure (s.1, ok, none)
    else Run.pure (lmm, ok, none)

/-- The map key and the value one line of the dictionary is stored under: the
line is split at single spaces, field 0 is the word, field 1 the lemma, field 2
the tag (mapped through `mapPos` when there is one); `none` when a field index
is out of range. -/
def entryOf (mapPos : Option (String → String × Bool)) (text : String) :
    Option (String × String) :=
  match Split text ' ' with
  | w :: lm :: t :: _ =>
    match mapPos with
    | some f => some (w ++ " " ++ (f t).1, lm)
    | none => some (w ++ " " ++ t, lm)
  | _ => none

/-- Body of the scanning loop of `loadDict` for one line. -/
def loadLine (mapPos : Option (String → String × Bool)) (dict : Dict) (text : String) :
    Except Panic Dict :=
  match entryOf mapPos text with
  | some (k, v) => Except.ok (dict.set k v)
  | none => Except.error Panic.indexOutOfRange

/-- The scanning loop of `loadDict`. -/
def loadLines (mapPos : Option (String → String × Bool)) : Dict → List String → Except Panic Dict
  | dict, [] => Except.ok dict
  | dict, text :: rest =>
    match loadLine mapPos dict text with
    | Except.ok dict' => loadLines mapPos dict' rest
    | Except.error p => Except.error p

/-- First step of `loadDict`: a relative path is taken relative to the directory
`installDicts` returns. -/
def resolvePath (E : Env) (dictPath : String) : Except String String :=
  if E.IsAbs dictPath = false then
    match E.installDicts with
    | Except.ok lemmingoHome => Except.ok (E.Join lemmingoHome dictPath)
    | Except.error e => Except.error e
  else Except.ok dictPath

/-- The tag mapping `loadDict` uses: none for an empty tagset name. -/
def loadMapPos (E : Env) (tagsetName tagsetLang : String) :
    Except Panic (Option (String → String × Bool)) :=
  if tagsetName ≠ "" then
    match tagset.MapPos E tagsetName tagsetLang with
    | Except.ok f => Except.ok (some f)
    | Except.error p => Except.error p
  else Except.ok none

/-- Source function `loadDict`; a nil map result is `Dict.empty`. -/
def loadDict (E : Env) (dictPath tagsetName tagsetLang : String) :
    Except Panic (Dict × GoError) :=
  match resolvePath E dictPath with
  | Except.error e => Except.ok (Dict.empty, some e)
  | Except.ok dictPath =>
    match E.Open dictPath with
    | Except.error e => Except.ok (Dict.empty, some e)
    | Except.ok file =>
      match loadMapPos E tagsetName tagsetLang with
      | Except.error p => Except.error p
      | Except.ok mapPos =>
        match loadLines mapPos Dict.empty file.lines with
        | Except.error p => Except.error p
        | Except.ok dict =>
          match file.scanErr with
          | some e => Except.ok (Dict.empty, some e)
          | none => Except.ok (dict, none)

/-- Source function `Build`. -/
def Build (E : Env) (dictPath : String) (stemmerFallback : Bool) (stemmerLang : String)
    (spellerFallback : Bool) (spellerLang : String) (tagsetName tagsetLang : String)
    (concurrent : Bool) : Except Panic (Lemmingo × GoError) :=
  match loadDict E dictPath tagsetName tagsetLang with
  | Except.error p => Except.error p
  | Except.ok (dict, some e) =>
    Except.ok (⟨dict, stemmerLang, spellerLang, none, none, stemmerFallback, spellerFallback,
      concurrent⟩, some e)
  | Except.ok (dict, none) =>
    let stemmerPool : Except Panic (Option Pool) :=
      if stemmerFallback = true then
        match (loadStemmer E stemmerLang).2 with
        | some e => Except.error (Panic.err e)
        | none =>
          Except.ok (some ((loadStemmerPool E 1).SetSize (if concurrent = true then E.NumCPU else 1)))
      else Except.ok none
    match stemmerPool with
    | Except.error p => Except.error p
    | Except.ok stemmerPool =>
      let spellerPool : Except Panic (Option Pool) :=
        if spellerFallback = true then
          match (loadSpeller E spellerLang).2 with
          | some e => Except.error (Panic.err e)
          | none =>
            Except.ok (some ((loadSpellerPool E 1).SetSize (if concurrent = true then E.NumCPU else 1)))
        else Except.ok none
      match spellerPool with
      | Except.error p => Except.error p
      | Except.ok spellerPool =>
        Except.ok (⟨dict, stemmerLang, spellerLang, stemmerPool, spellerPool, stemmerFallback,
          spellerFallback, concurrent⟩, none)

/-- Source function `New`. -/
def New (E : Env) (dictPath langTag tagsetName : String)
    (stemmerFallback spellerFallback concurrent : Bool) : Except Panic (Lemmingo × GoError) :=
  let tagsetLang := E.langBase langTag
  let spellerLang := langTag
  let stemmerLang := E.ToLower (E.langName langTag)
  Build E dictPath stemmerFallback stemmerLang spellerFallback spellerLang tagsetName tagsetLang
    concurrent

/-- The two pools an instance may own. -/
inductive PoolKind where
  | stemmer
  | speller
  deriving DecidableEq, Repr

/-- Go `pool.Close()` through a possibly nil pool pointer: an existing pool is
released, a nil pointer panics. -/
def closePool (pool : Option Pool) (kind : PoolKind) : List PoolKind × Except Panic Unit :=
  match pool with
  | some _ => ([kind], Except.ok ())
  | none => ([], Except.error Panic.nilDeref)

/-- Method `Close`: two deferred calls, so `stemmerPool.Close()` runs first and
`spellerPool.Close()` second, the second also when the first has panicked. The
result is the list of pools released, in order, and whether `Close` returned. -/
def Lemmingo.Close (l : Lemmingo) : List PoolKind × Except Panic Unit :=
  let r1 := closePool l.stemmerPool PoolKind.stemmer
  let r2 := closePool l.spellerPool PoolKind.speller
  (r1.1 ++ r2.1,
    match r1.2, r2.2 with
    | Except.ok _, Except.ok _ => Except.ok ()
    | _, Except.error p => Except.error p
    | Except.error p, Except.ok _ => Except.error p)

/-! ## An instance in a later world

The work functions of the pools call `loadStemmer` and `loadSpeller` anew on
every call (`lemmingo.go`, bodies of `loadStemmerPool` and `loadSpellerPool`),
so what a call on an instance does depends on what the libraries answer at the
time of the call, not at the time of `Build`. -/

/-- The instance `l` as it runs when the outside world is `E`: every field is
unchanged, a pool keeps its size, and the workers of a pool load their backend
from `E`. For the world `Build` ran in this is the instance itself. -/
def Lemmingo.inWorld (l : Lemmingo) (E : Env) : Lemmingo :=
  ⟨l.dict, l.stemmerLang, l.spellerLang,
    l.stemmerPool.map (fun p => ⟨p.size, stemmerWork E⟩),
    l.spellerPool.map (fun p => ⟨p.size, spellerWork E⟩),
    l.stemmerFallback, l.spellerFallback, l.concurrent⟩

/-! ## Reading the loaded store

Definitions used to state what `loadDict` leaves in the store. -/

/-- The store after assigning the given `(key, value)` pairs in order to `d0`. -/
def storeOf (entries : List (String × String)) (d0 : Dict) : Dict :=
  entries.foldl (fun d e => d.set e.1 e.2) d0

/-- The POS a tag is filed under: what `mapPos` gives for it when there is a
tagset, the tag itself otherwise. -/
def filedPos (mapPos : Option (String → String × Bool)) (t : String) : String :=
  match mapPos with
  | some f => (f t).1
  | none => t

/-- The three fields a dictionary line is read as: word, lemma, and the POS the
entry is filed under; `none` for a line with fewer than three fields. -/
def fieldsOf (mapPos : Option (String → String × Bool)) (text : String) :
    Option (String × String × String) :=
  match Split text ' ' with
  | w :: lm :: t :: _ => some (w, lm, filedPos mapPos t)
  | _ => none

/-- The lemma field of the last line whose word field is `w` and whose
(normalized) POS is `p`, if there is such a line. -/
def lastLemma (mapPos : Option (String → String × Bool)) (lines : List String)
    (w p : String) : Option String :=
  ((lines.filterMap (fieldsOf mapPos)).reverse.find?
    (fun e => decide (e.1 = w ∧ e.2.2 = p))).map (fun e => e.2.1)

/-! ## A small concrete world

Used to run the definitions on explicit inputs. -/

/-- ASCII lower-casing, the restriction of `strings.ToLower` to ASCII text. -/
def asciiLower (s : String) : String := ⟨s.data.map Char.toLower⟩

/-- ASCII upper-casing, the restriction of `strings.ToUpper` to ASCII text. -/
def asciiUpper (s : String) : String := ⟨s.data.map Char.toUpper⟩

/-- A stemmer that knows two words. -/
def demoStemmer : Stemmer :=
  ⟨fun w => if w = "teenager" then "teenag" else if w = "laboratory" then "laboratori" else w⟩

/-- A speller with a four-word vocabulary and three suggestion lists. -/
def demoSpeller : Speller :=
  ⟨fun w => decide (w ∈ ["teenage", "teenager", "typo", "laboratory"]),
   fun w =>
    if w = "teenag" then ["teenage", "teenager"]
    else if w = "juse" then ["Jude", "use"]
    else if w = "labratory" then ["laboratory", "lavatory"]
    else []⟩

/-- A dictionary file of seven lines: the first is overwritten by the third, the
fifth has two spaces in a row, so an empty lemma field, the sixth has a
capitalised word and a lower-case tag. -/
def demoFile : File :=
  ⟨["are art VBP", "am be VBP", "are be VBP", "stranger strange JJR",
    "laboratory  NN", "Apple apple nn", "caresses caress NNS"], none⟩

/-- A world with one dictionary file, an English stemmer and an English speller. -/
def demoEnv : Env where
  ToLower := asciiLower
  ToUpper := asciiUpper
  langBase := fun t => ⟨t.data.takeWhile (fun c => c != '-')⟩
  langName := fun t => if t.data.takeWhile (fun c => c != '-') = "en".data then "English" else ""
  snowballNew := fun lang =>
    if lang = "english" then Except.ok demoStemmer else Except.error "unknown stemmer language"
  aspellNew := fun lang =>
    if lang = "en" then Except.ok demoSpeller else Except.error "unknown speller language"
  NumCPU := 4
  IsAbs := fun p => p.data.head? = some '/'
  Join := fun a b => a ++ "/" ++ b
  installDicts := Except.ok "/home/user/.lemmingo"
  Open := fun p => if p = "/dicts/en.lmm" then Except.ok demoFile else Except.error "no such file"

/-- The instance `Build` returns in the demo world for the demo file, without a
tagset, for the given fallback flags (the zero value if `Build` does not return). -/
def demoLemmingo (stemmerFallback spellerFallback : Bool) : Lemmingo :=
  match Build demoEnv "/dicts/en.lmm" stemmerFallback "english" spellerFallback "en" "" ""
      false with
  | Except.ok (l, _) => l
  | Except.error _ => ⟨Dict.empty, "", "", none, none, false, false, false⟩

/-- The instance `Build` returns in the demo world with both fallbacks and
`concurrent` set (the zero value if `Build` does not return). -/
def demoConcurrent : Lemmingo :=
  match Build demoEnv "/dicts/en.lmm" true "english" true "en" "" "" true with
  | Except.ok (l, _) => l
  | Except.error _ => ⟨Dict.empty, "", "", none, none, false, false, false⟩

/-- The demo world at a later moment, when the stemmer library can no longer
create a stemmer: `snowball.New` returns its error for every language, as it
does whenever `sb_stemmer_new` gives back a null pointer. Everything else is as
in the demo world. -/
def demoEnvExhausted : Env :=
  { demoEnv with snowballNew := fun _ => Except.error "can't create stemmer" }

/-- The demo world with a second dictionary file, "/dicts/short.lmm", whose
second line is empty. -/
def demoEnvShort : Env :=
  { demoEnv with
    Open := fun p =>
      if p = "/dicts/short.lmm" then Except.ok ⟨["am be VBP", "", "are be VBP"], none⟩
      else demoEnv.Open p }

end lemmingo

namespace lemmingo

/-! ## Runs -/

@[simp] theorem Run.pure_bind {α β : Type} (a : α) (f : α → Run β) :
    (Run.pure a).bind f = f a := by
  simp [Run.bind, Run.pure]

@[simp] theorem Run.mk_ok_bind {α β : Type} (tr : List Event) (a : α) (f : α → Run β) :
    (Run.mk tr (Except.ok a)).bind f = ⟨tr ++ (f a).trace, (f a).out⟩ := rfl

@[simp] theorem Run.mk_error_bind {α β : Type} (tr : List Event) (p : Panic) (f : α → Run β) :
    (Run.mk tr (Except.error p)).bind f = ⟨tr, Except.error p⟩ := rfl

/-! ## What a successful `Build` leaves behind -/

theorem loadStemmer_snd_none {E : Env} {lang : String} (h : (loadStemmer E lang).2 = none) :
    ∃ st, E.snowballNew lang = Except.ok st := by
  unfold loadStemmer at h
  cases hs : E.snowballNew lang with
  | ok st => exact ⟨st, rfl⟩
  | error e => simp [hs] at h

theorem loadSpeller_snd_none {E : Env} {lang : String} (h : (loadSpeller E lang).2 = none) :
    ∃ sp, E.aspellNew lang = Except.ok sp := by
  unfold loadSpeller at h
  cases hs : E.aspellNew lang with
  | ok sp => exact ⟨sp, rfl⟩
  | error e => simp [hs] at h

/-- Fields of an instance `Build` returns without error: the loaded dictionary,
the configuration as passed in, and a pool exactly for each enabled fallback,
whose backend loads for the configured language. -/
theorem Build_ok_inv {E : Env} {dictPath sl pl tn tl : String} {sf pf conc : Bool}
    {l : Lemmingo}
    (hb : Build E dictPath sf sl pf pl tn tl conc = Except.ok (l, none)) :
    loadDict E dictPath tn tl = Except.ok (l.dict, none) ∧
    l.stemmerLang = sl ∧ l.spellerLang = pl ∧
    l.stemmerFallback = sf ∧ l.spellerFallback = pf ∧ l.concurrent = conc ∧
    (sf = true → ∃ st, E.snowballNew sl = Except.ok st ∧
      l.stemmerPool = some ⟨if conc = true then E.NumCPU else 1, stemmerWork E⟩) ∧
    (sf = false → l.stemmerPool = none) ∧
    (pf = true → ∃ sp, E.aspellNew pl = Except.ok sp ∧
      l.spellerPool = some ⟨if conc = true then E.NumCPU else 1, spellerWork E⟩) ∧
    (pf = false → l.spellerPool = none) := by
  unfold Build at hb
  cases hd : loadDict E dictPath tn tl with
  | error p => simp [hd] at hb
  | ok r =>
    obtain ⟨dict, e⟩ := r
    cases e with
    | some e => simp [hd] at hb
    | none =>
      simp only [hd] at hb
      cases sf <;> cases pf <;> simp at hb
      · subst hb; simp
      · cases h2 : (loadSpeller E pl).2 with
        | some e => simp [h2] at hb
        | none =>
          simp [h2] at hb
          subst hb
          obtain ⟨sp, hsp⟩ := loadSpeller_snd_none h2
          simp [hsp, loadSpellerPool, Pool.SetSize]
      · cases h1 : (loadStemmer E sl).2 with
        | some e => simp [h1] at hb
        | none =>
          simp [h1] at hb
          subst hb
          obtain ⟨st, hst⟩ := loadStemmer_snd_none h1
          simp [hst, loadStemmerPool, Pool.SetSize]
      · cases h1 : (loadStemmer E sl).2 with
        | some e => simp [h1] at hb
        | none =>
          cases h2 : (loadSpeller E pl).2 with
          | some e => simp [h1, h2] at hb
          | none =>
            simp [h1, h2] at hb
            subst hb
            obtain ⟨st, hst⟩ := loadStemmer_snd_none h1
            obtain ⟨sp, hsp⟩ := loadSpeller_snd_none h2
            simp [hst, hsp, loadStemmerPool, loadSpellerPool, Pool.SetSize]

/-! ## Backend calls of an instance with pools -/

theorem stemmerWork_ok {E : Env} {lang : String} {st : Stemmer}
    (h : E.snowballNew lang = Except.ok st) (w : String) :
    stemmerWork E ⟨lang, w⟩ = Except.ok (st.Stem w) := by
  simp [stemmerWork, loadStemmer, h]

theorem spellerWork_ok {E : Env} {lang : String} {sp : Speller}
    (h : E.aspellNew lang = Except.ok sp) (w : String) :
    spellerWork E ⟨lang, w⟩ = Except.ok (sp.Correct w) := by
  simp [spellerWork, loadSpeller, h]

theorem stem_of_pool {E : Env} {l : Lemmingo} {n : Nat} {st : Stemmer}
    (hp : l.stemmerPool = some ⟨n, stemmerWork E⟩)
    (h : E.snowballNew l.stemmerLang = Except.ok st) (w : String) :
    l.stem w = ⟨[Event.stem l.stemmerLang w], Except.ok (st.Stem w)⟩ := by
  simp [Lemmingo.stem, Process, hp, stemmerWork_ok h]

theorem spellCheck_of_pool {E : Env} {l : Lemmingo} {n : Nat} {sp : Speller}
    (hp : l.spellerPool = some ⟨n, spellerWork E⟩)
    (h : E.aspellNew l.spellerLang = Except.ok sp) (w : String) :
    l.spellCheck w = ⟨[Event.spell l.spellerLang w], Except.ok (sp.Correct w)⟩ := by
  simp [Lemmingo.spellCheck, Process, hp, spellerWork_ok h]

/-! ## The lookup step of `Lemma` -/

/-- When no pre-correction applies, a dictionary entry with a non-empty lemma is
returned as it is, with `found = true`, and no backend is called. -/
theorem Lemma_hit_nonempty (E : Env) (l : Lemmingo) (word pos L : String)
    (hcfg : ¬ (l.stemmerFallback = false ∧ l.spellerFallback = true))
    (hhit : l.dict (E.ToLower word ++ " " ++ E.ToUpper pos) = some L) (hL : L ≠ "") :
    l.Lemma E word pos =
      ⟨[Event.lookup (E.ToLower word ++ " " ++ E.ToUpper pos)], Except.ok (L, true, none)⟩ := by
  simp [Lemmingo.Lemma, hcfg, Lemmingo.lookup, Dict.index, hhit, hL, Run.pure]

theorem Lemma_miss_plain (E : Env) (l : Lemmingo) (word pos : String)
    (hs : l.stemmerFallback = false) (hp : l.spellerFallback = false)
    (hmiss : l.dict (E.ToLower word ++ " " ++ E.ToUpper pos) = none) :
    l.Lemma E word pos =
      ⟨[Event.lookup (E.ToLower word ++ " " ++ E.ToUpper pos)],
        Except.ok (E.ToLower word, false,
          some ("Word's (" ++ E.ToLower word ++ ") lemma wasn't found!"))⟩ := by
  simp [Lemmingo.Lemma, hs, hp, Lemmingo.lookup, Dict.index, hmiss, Run.pure]

theorem demo_build (sf pf : Bool) :
    Build demoEnv "/dicts/en.lmm" sf "english" pf "en" "" "" false
      = Except.ok (demoLemmingo sf pf, none) := by
  cases sf <;> cases pf <;> rfl

/-- With the stemmer disabled, a key that is not in the dictionary gives the
looked-up word, `found = false` and the "lemma wasn't found" error; with the
speller enabled the looked-up word is the corrected one. -/
theorem Lemma_miss_without_stemmer (E : Env) (dictPath sl pl tn tl : String) (pf conc : Bool)
    (l : Lemmingo) (word pos : String)
    (hb : Build E dictPath false sl pf pl tn tl conc = Except.ok (l, none)) :
    (pf = false → l.dict (E.ToLower word ++ " " ++ E.ToUpper pos) = none →
      l.Lemma E word pos =
        ⟨[Event.lookup (E.ToLower word ++ " " ++ E.ToUpper pos)],
          Except.ok (E.ToLower word, false,
            some ("Word's (" ++ E.ToLower word ++ ") lemma wasn't found!"))⟩) ∧
    (pf = true → ∃ sp, E.aspellNew pl = Except.ok sp ∧
      (l.dict (sp.Correct (E.ToLower word) ++ " " ++ E.ToUpper pos) = none →
        l.Lemma E word pos =
          ⟨[Event.spell pl (E.ToLower word),
            Event.lookup (sp.Correct (E.ToLower word) ++ " " ++ E.ToUpper pos)],
            Except.ok (sp.Correct (E.ToLower word), false,
              some ("Word's (" ++ sp.Correct (E.ToLower word) ++ ") lemma wasn't found!"))⟩)) := by
  obtain ⟨-, -, hpl, hsf, hpf, -, -, -, hsp, -⟩ := Build_ok_inv hb
  constructor
  · intro h hmiss
    subst h
    exact Lemma_miss_plain E l word pos hsf hpf hmiss
  · intro h
    subst h
    obtain ⟨sp, hsp1, hsp2⟩ := hsp rfl
    refine ⟨sp, hsp1, fun hmiss => ?_⟩
    rw [← hpl] at hsp1
    simp [Lemmingo.Lemma, hsf, hpf, Lemmingo.lookup, Dict.index, hmiss,
      spellCheck_of_pool hsp2 hsp1, Run.pure, hpl]

/-- Speller-only instances look up the corrected word; an entry with a non-empty
lemma found there is returned with `found = true`. -/
theorem Lemma_speller_only_hit (E : Env) (dictPath sl pl tn tl : String) (conc : Bool)
    (l : Lemmingo) (word pos : String)
    (hb : Build E dictPath false sl true pl tn tl conc = Except.ok (l, none)) :
    ∃ sp, E.aspellNew pl = Except.ok sp ∧
      ∀ L, l.dict (sp.Correct (E.ToLower word) ++ " " ++ E.ToUpper pos) = some L → L ≠ "" →
        l.Lemma E word pos =
          ⟨[Event.spell pl (E.ToLower word),
            Event.lookup (sp.Correct (E.ToLower word) ++ " " ++ E.ToUpper pos)],
            Except.ok (L, true, none)⟩ := by
  obtain ⟨-, -, hpl, hsf, hpf, -, -, -, hsp, -⟩ := Build_ok_inv hb
  obtain ⟨sp, hsp1, hsp2⟩ := hsp rfl
  refine ⟨sp, hsp1, fun L hhit hL => ?_⟩
  rw [← hpl] at hsp1
  simp [Lemmingo.Lemma, hsf, hpf, Lemmingo.lookup, Dict.index, hhit, hL,
    spellCheck_of_pool hsp2 hsp1, Run.pure, hpl]

/-- What a speller-only instance returns is what an instance without fallbacks
over the same dictionary returns for the corrected word, when lower-casing
leaves that word alone. -/
theorem Lemma_speller_only_eq_plain (E : Env) (dictPath sl pl tn tl : String) (conc : Bool)
    (l l0 : Lemmingo) (word pos : String)
    (hb : Build E dictPath false sl true pl tn tl conc = Except.ok (l, none))
    (hd : l0.dict = l.dict) (hs0 : l0.stemmerFallback = false)
    (hp0 : l0.spellerFallback = false) :
    ∃ sp, E.aspellNew pl = Except.ok sp ∧
      (E.ToLower (sp.Correct (E.ToLower word)) = sp.Correct (E.ToLower word) →
        (l.Lemma E word pos).out = (l0.Lemma E (sp.Correct (E.ToLower word)) pos).out) := by
  obtain ⟨-, -, hpl, hsf, hpf, -, -, -, hsp, -⟩ := Build_ok_inv hb
  obtain ⟨sp, hsp1, hsp2⟩ := hsp rfl
  refine ⟨sp, hsp1, fun hfix => ?_⟩
  rw [← hpl] at hsp1
  simp only [Lemmingo.Lemma, hsf, hpf, hs0, hp0, hfix, spellCheck_of_pool hsp2 hsp1,
    Lemmingo.lookup, Dict.index, hd, Run.pure, Run.mk_ok_bind, and_self, and_true, if_true,
    Bool.false_eq_true, and_false, if_false]

/-- Outside the speller-only configuration the first thing `Lemma` does is look
up the lower-cased word: no backend runs before the lookup. -/
theorem Lemma_trace_starts_with_lookup (E : Env) (l : Lemmingo) (word pos : String)
    (hcfg : ¬ (l.stemmerFallback = false ∧ l.spellerFallback = true)) :
    ∃ rest, (l.Lemma E word pos).trace =
      Event.lookup (E.ToLower word ++ " " ++ E.ToUpper pos) :: rest := by
  simp only [Lemmingo.Lemma, hcfg, if_false, Run.pure_bind, Lemmingo.lookup, Run.mk_ok_bind]
  exact ⟨_, rfl⟩

/-- On an instance built with the stemmer enabled, `Stem` stems and then, with
the speller enabled, corrects the stem; it returns no error. -/
theorem Stem_with_stemmer (E : Env) (dictPath sl pl tn tl : String) (pf conc : Bool)
    (l : Lemmingo) (word : String)
    (hb : Build E dictPath true sl pf pl tn tl conc = Except.ok (l, none)) :
    ∃ st, E.snowballNew sl = Except.ok st ∧
      (pf = false →
        l.Stem word = ⟨[Event.stem sl word], Except.ok (st.Stem word, none)⟩) ∧
      (pf = true → ∃ sp, E.aspellNew pl = Except.ok sp ∧
        l.Stem word = ⟨[Event.stem sl word, Event.spell pl (st.Stem word)],
          Except.ok (sp.Correct (st.Stem word), none)⟩) := by
  obtain ⟨-, hsl, hpl, hsf, hpf, -, hst, -, hsp, -⟩ := Build_ok_inv hb
  obtain ⟨st, hst1, hst2⟩ := hst rfl
  refine ⟨st, hst1, ?_, ?_⟩
  · intro h
    subst h
    rw [← hsl] at hst1
    simp [Lemmingo.Stem, hpf, stem_of_pool hst2 hst1, Run.pure, hsl]
  · intro h
    subst h
    obtain ⟨sp, hsp1, hsp2⟩ := hsp rfl
    refine ⟨sp, hsp1, ?_⟩
    rw [← hsl] at hst1
    rw [← hpl] at hsp1
    simp [Lemmingo.Stem, hpf, stem_of_pool hst2 hst1, spellCheck_of_pool hsp2 hsp1, Run.pure,
      hsl, hpl]

/-! ## Splitting and keys -/

theorem splitChars_not_mem (sep : Char) (cs : List Char) :
    ∀ f ∈ splitChars sep cs, sep ∉ f := by
  induction cs with
  | nil => intro f hf; simp [splitChars] at hf; simp [hf]
  | cons c cs ih =>
    intro f hf
    unfold splitChars at hf
    by_cases hc : c = sep
    · simp only [hc, if_true, List.mem_cons] at hf
      rcases hf with rfl | hf
      · simp
      · exact ih f hf
    · simp only [hc, if_false] at hf
      cases hsp : splitChars sep cs with
      | nil => 
        simp only [hsp, List.mem_singleton] at hf
        subst hf
        simpa using fun h => hc h.symm
      | cons g gs =>
        simp only [hsp, List.mem_cons] at hf
        rcases hf with rfl | hf
        · have hg := ih g (by simp [hsp])
          simp only [List.mem_cons, not_or]
          exact ⟨fun h => hc h.symm, hg⟩
        · exact ih f (by simp [hsp, hf])

theorem Split_not_mem (text : String) (sep : Char) :
    ∀ f ∈ Split text sep, sep ∉ f.data := by
  intro f hf
  simp only [Split, List.mem_map] at hf
  obtain ⟨g, hg, rfl⟩ := hf
  exact splitChars_not_mem sep text.data g hg

theorem key_chars_inj : ∀ (a x b y : List Char), ' ' ∉ a → ' ' ∉ b →
    a ++ ' ' :: b = x ++ ' ' :: y → a = x ∧ b = y := by
  intro a
  induction a with
  | nil =>
    intro x b y _ hb h
    cases x with
    | nil => simpa using h
    | cons c x =>
      simp only [List.nil_append, List.cons_append, List.cons.injEq] at h
      obtain ⟨rfl, rfl⟩ := h
      simp at hb
  | cons c a ih =>
    intro x b y ha hb h
    simp only [List.mem_cons, not_or] at ha
    cases x with
    | nil =>
      simp only [List.nil_append, List.cons_append, List.cons.injEq] at h
      exact absurd h.1.symm ha.1
    | cons c' x =>
      simp only [List.cons_append, List.cons.injEq] at h
      obtain ⟨rfl, h⟩ := h
      obtain ⟨rfl, rfl⟩ := ih x b y ha.2 hb h
      exact ⟨rfl, rfl⟩

/-- The key `a ++ " " ++ b` of a space-free word and a space-free POS determines
both, among all pairs of strings. -/
theorem key_inj (a b x y : String) (ha : ' ' ∉ a.data) (hb : ' ' ∉ b.data) :
    a ++ " " ++ b = x ++ " " ++ y ↔ a = x ∧ b = y := by
  constructor
  · intro h
    have h2 : a.data ++ ' ' :: b.data = x.data ++ ' ' :: y.data := by
      have := congrArg String.data h
      simpa [String.data_append] using this
    obtain ⟨h3, h4⟩ := key_chars_inj _ _ _ _ ha hb h2
    exact ⟨String.ext h3, String.ext h4⟩
  · rintro ⟨rfl, rfl⟩
    rfl

/-! ## The scanning loop -/

/-- Reading `storeOf`: the value of the last entry with the key, else the
original map. -/
theorem storeOf_apply (entries : List (String × String)) (d0 : Dict) (k : String) :
    storeOf entries d0 k =
      match entries.reverse.find? (fun e => decide (e.1 = k)) with
      | some e => some e.2
      | none => d0 k := by
  induction entries generalizing d0 with
  | nil => simp [storeOf]
  | cons e es ih =>
    have hstep : storeOf (e :: es) d0 = storeOf es (d0.set e.1 e.2) := rfl
    rw [hstep, ih, List.reverse_cons, List.find?_append]
    cases hf : es.reverse.find? (fun e => decide (e.1 = k)) with
    | some e' => simp
    | none =>
      by_cases hk : e.1 = k
      · simp [Dict.set, hk]
      · have hk' : ¬ k = e.1 := fun h => hk h.symm
        simp [Dict.set, hk, hk']

theorem loadLines_ok (mapPos : Option (String → String × Bool)) (lines : List String)
    (d0 : Dict) (h : ∀ text ∈ lines, (entryOf mapPos text).isSome = true) :
    loadLines mapPos d0 lines = Except.ok (storeOf (lines.filterMap (entryOf mapPos)) d0) := by
  induction lines generalizing d0 with
  | nil => rfl
  | cons text rest ih =>
    have h1 := h text (by simp)
    obtain ⟨e, he⟩ := Option.isSome_iff_exists.mp h1
    have h2 : ∀ t ∈ rest, (entryOf mapPos t).isSome = true := fun t ht => h t (by simp [ht])
    simp only [loadLines, loadLine, he, List.filterMap_cons]
    rw [ih _ h2]
    rfl

theorem loadLines_ok_inv (mapPos : Option (String → String × Bool)) (lines : List String)
    (d0 d : Dict) (h : loadLines mapPos d0 lines = Except.ok d) :
    ∀ text ∈ lines, (entryOf mapPos text).isSome = true := by
  induction lines generalizing d0 with
  | nil => simp
  | cons text rest ih =>
    simp only [loadLines, loadLine] at h
    cases he : entryOf mapPos text with
    | none => simp [he] at h
    | some e =>
      simp only [he] at h
      intro t ht
      simp only [List.mem_cons] at ht
      rcases ht with rfl | ht
      · simp [he]
      · exact ih _ h t ht

theorem entryOf_eq_fieldsOf (mapPos : Option (String → String × Bool)) (text : String) :
    entryOf mapPos text =
      (fieldsOf mapPos text).map (fun e => (e.1 ++ " " ++ e.2.2, e.2.1)) := by
  unfold entryOf fieldsOf
  split
  · cases mapPos <;> rfl
  · rfl

theorem entryOf_isSome_of_length (mapPos : Option (String → String × Bool)) (text : String)
    (h : 3 ≤ (Split text ' ').length) : (entryOf mapPos text).isSome = true := by
  unfold entryOf
  match hs : Split text ' ' with
  | [] => simp [hs] at h
  | [_] => simp [hs] at h
  | [_, _] => simp [hs] at h
  | w :: lm :: t :: rest => cases mapPos <;> simp

theorem length_of_entryOf_isSome (mapPos : Option (String → String × Bool)) (text : String)
    (h : (entryOf mapPos text).isSome = true) : 3 ≤ (Split text ' ').length := by
  unfold entryOf at h
  match hs : Split text ' ' with
  | [] => simp [hs] at h
  | [_] => simp [hs] at h
  | [_, _] => simp [hs] at h
  | w :: lm :: t :: rest => simp

/-! ## The tag mapping -/

theorem lookup_getD_mem (tbl : List (String × String)) (t : String) :
    (tbl.lookup t).getD "" ∈ "" :: tbl.map Prod.snd := by
  induction tbl with
  | nil => simp
  | cons e es ih =>
    obtain ⟨k, v⟩ := e
    by_cases h : t = k
    · subst h; simp [List.lookup]
    · have hb : (t == k) = false := by simpa using h
      simp only [List.lookup, hb, List.map_cons, List.mem_cons] at ih ⊢
      rcases ih with h1 | h1
      · exact Or.inl h1
      · exact Or.inr (Or.inr h1)

theorem tagsetMapping_table (tn lang : String) (tbl : List (String × String))
    (h : tagset.tagsetMapping tn lang = (tbl, none)) :
    tbl = tagset.pennEn ∨ tbl = tagset.freelingEn := by
  unfold tagset.tagsetMapping at h
  simp only [List.lookup] at h
  split at h
  · rename_i mapping hm
    have : mapping = tbl := by simpa using congrArg Prod.fst h
    subst this
    split at hm
    · left; simpa using hm.symm
    · split at hm
      · right; simpa using hm.symm
      · simp at hm
  · simp at h

theorem pennEn_values_no_space : ∀ v ∈ "" :: tagset.pennEn.map Prod.snd, ' ' ∉ v.data := by
  decide

theorem freelingEn_values_no_space :
    ∀ v ∈ "" :: tagset.freelingEn.map Prod.snd, ' ' ∉ v.data := by
  decide

theorem MapPos_inv (E : Env) (tn tl : String) (f : String → String × Bool)
    (h : tagset.MapPos E tn tl = Except.ok f) :
    ∃ tbl, tagset.tagsetMapping tn (E.langBase tl) = (tbl, none) ∧
      f = tagset.lookupIn tbl := by
  unfold tagset.MapPos at h
  simp only at h
  split at h
  · simp at h
  · rename_i tbl heq
    refine ⟨tbl, heq, ?_⟩
    simpa using h.symm

theorem MapPos_no_space (E : Env) (tn tl : String) (f : String → String × Bool)
    (h : tagset.MapPos E tn tl = Except.ok f) (t : String) : ' ' ∉ (f t).1.data := by
  obtain ⟨tbl, htbl, rfl⟩ := MapPos_inv E tn tl f h
  rcases tagsetMapping_table _ _ _ htbl with rfl | rfl
  · exact pennEn_values_no_space _ (lookup_getD_mem _ t)
  · exact freelingEn_values_no_space _ (lookup_getD_mem _ t)

theorem loadMapPos_no_space (E : Env) (tn tl : String)
    (mapPos : Option (String → String × Bool)) (h : loadMapPos E tn tl = Except.ok mapPos) :
    ∀ f, mapPos = some f → ∀ t, ' ' ∉ (f t).1.data := by
  intro f hf t
  subst hf
  unfold loadMapPos at h
  split at h
  · cases hm : tagset.MapPos E tn tl with
    | error p => simp [hm] at h
    | ok g =>
      simp only [hm, Except.ok.injEq, Option.some.injEq] at h
      subst h
      exact MapPos_no_space E tn tl g hm t
  · simp at h

theorem fieldsOf_no_space (mapPos : Option (String → String × Bool))
    (hm : ∀ f, mapPos = some f → ∀ t, ' ' ∉ (f t).1.data) (text w lm p : String)
    (h : fieldsOf mapPos text = some (w, lm, p)) : ' ' ∉ w.data ∧ ' ' ∉ p.data := by
  unfold fieldsOf at h
  split at h
  · rename_i w' lm' t' rest hs
    have hw : ' ' ∉ w'.data := Split_not_mem text ' ' w' (by simp [hs])
    have ht : ' ' ∉ t'.data := Split_not_mem text ' ' t' (by simp [hs])
    cases mapPos with
    | none =>
      simp only [Option.some.injEq, Prod.mk.injEq, filedPos] at h
      obtain ⟨rfl, -, rfl⟩ := h
      exact ⟨hw, ht⟩
    | some f =>
      simp only [Option.some.injEq, Prod.mk.injEq, filedPos] at h
      obtain ⟨rfl, -, rfl⟩ := h
      exact ⟨hw, hm f rfl t'⟩
  · simp at h

theorem find_key_eq_find_pair (fs : List (String × String × String))
    (hfs : ∀ e ∈ fs, ' ' ∉ e.1.data ∧ ' ' ∉ e.2.2.data) (w p : String) :
    (fs.map (fun e => (e.1 ++ " " ++ e.2.2, e.2.1))).find?
        (fun e => decide (e.1 = w ++ " " ++ p)) =
      (fs.find? (fun e => decide (e.1 = w ∧ e.2.2 = p))).map
        (fun e => (e.1 ++ " " ++ e.2.2, e.2.1)) := by
  induction fs with
  | nil => rfl
  | cons e es ih =>
    have he := hfs e (by simp)
    have hes : ∀ e' ∈ es, ' ' ∉ e'.1.data ∧ ' ' ∉ e'.2.2.data :=
      fun e' h' => hfs e' (by simp [h'])
    have hiff := key_inj e.1 e.2.2 w p he.1 he.2
    by_cases hk : e.1 = w ∧ e.2.2 = p
    · have hk' : e.1 ++ " " ++ e.2.2 = w ++ " " ++ p := hiff.mpr hk
      simp [List.find?, hk, hk']
    · have hk' : ¬ e.1 ++ " " ++ e.2.2 = w ++ " " ++ p := fun h => hk (hiff.mp h)
      simp only [List.map_cons, List.find?, hk, hk', decide_False]
      exact ih hes

/-- The store built from a list of lines holds, under `w ++ " " ++ p`, the lemma
of the last line with word `w` and filed POS `p`. -/
theorem store_eq_lastLemma (mapPos : Option (String → String × Bool))
    (hm : ∀ f, mapPos = some f → ∀ t, ' ' ∉ (f t).1.data) (lines : List String)
    (w p : String) :
    storeOf (lines.filterMap (entryOf mapPos)) Dict.empty (w ++ " " ++ p) =
      lastLemma mapPos lines w p := by
  have hfm : lines.filterMap (entryOf mapPos) =
      (lines.filterMap (fieldsOf mapPos)).map (fun e => (e.1 ++ " " ++ e.2.2, e.2.1)) := by
    rw [List.map_filterMap]
    congr 1
    funext text
    rw [entryOf_eq_fieldsOf]
  have hfs : ∀ e ∈ (lines.filterMap (fieldsOf mapPos)).reverse,
      ' ' ∉ e.1.data ∧ ' ' ∉ e.2.2.data := by
    intro e he
    simp only [List.mem_reverse, List.mem_filterMap] at he
    obtain ⟨text, -, ht⟩ := he
    exact fieldsOf_no_space mapPos hm text e.1 e.2.1 e.2.2 ht
  rw [storeOf_apply, hfm, ← List.map_reverse, find_key_eq_find_pair _ hfs, lastLemma]
  cases ((lines.filterMap (fieldsOf mapPos)).reverse.find?
    (fun e => decide (e.1 = w ∧ e.2.2 = p))) <;> rfl

/-! ## `loadDict` as a whole -/

/-- A file that opens, scans cleanly and has three fields on every line loads
into the store of its entries, with no error. -/
theorem loadDict_ok (E : Env) (dictPath tn tl p : String) (file : File)
    (mapPos : Option (String → String × Bool))
    (hp : resolvePath E dictPath = Except.ok p) (ho : E.Open p = Except.ok file)
    (hs : file.scanErr = none) (hm : loadMapPos E tn tl = Except.ok mapPos)
    (h3 : ∀ text ∈ file.lines, 3 ≤ (Split text ' ').length) :
    loadDict E dictPath tn tl =
      Except.ok (storeOf (file.lines.filterMap (entryOf mapPos)) Dict.empty, none) := by
  have hl := loadLines_ok mapPos file.lines Dict.empty
    (fun text ht => entryOf_isSome_of_length mapPos text (h3 text ht))
  simp [loadDict, hp, ho, hm, hl, hs]

theorem loadDict_ok_inv (E : Env) (dictPath tn tl p : String) (file : File) (d : Dict)
    (hp : resolvePath E dictPath = Except.ok p) (ho : E.Open p = Except.ok file)
    (h : loadDict E dictPath tn tl = Except.ok (d, none)) :
    file.scanErr = none ∧ ∃ mapPos, loadMapPos E tn tl = Except.ok mapPos ∧
      (∀ text ∈ file.lines, 3 ≤ (Split text ' ').length) ∧
      d = storeOf (file.lines.filterMap (entryOf mapPos)) Dict.empty := by
  simp only [loadDict, hp, ho] at h
  cases hm : loadMapPos E tn tl with
  | error q => simp [hm] at h
  | ok mapPos =>
    simp only [hm] at h
    cases hl : loadLines mapPos Dict.empty file.lines with
    | error q => simp [hl] at h
    | ok d' =>
      simp only [hl] at h
      cases hs : file.scanErr with
      | some e => simp [hs] at h
      | none =>
        simp only [hs, Except.ok.injEq, Prod.mk.injEq, and_true] at h
        subst h
        have hall := loadLines_ok_inv mapPos file.lines Dict.empty d' hl
        refine ⟨rfl, mapPos, rfl, fun text ht => length_of_entryOf_isSome mapPos text (hall text ht), ?_⟩
        have := loadLines_ok mapPos file.lines Dict.empty hall
        rw [hl] at this
        simpa using this

/-! ## Which keys a call looks up -/

theorem mem_trace_bind {α β : Type} (r : Run α) (f : α → Run β) (ev : Event)
    (h : ev ∈ (r.bind f).trace) :
    ev ∈ r.trace ∨ ∃ a, r.out = Except.ok a ∧ ev ∈ (f a).trace := by
  unfold Run.bind at h
  cases hr : r.out with
  | error p => simp only [hr] at h; exact Or.inl h
  | ok a =>
    simp only [hr, List.mem_append] at h
    rcases h with h | h
    · exact Or.inl h
    · exact Or.inr ⟨a, rfl, h⟩

theorem Process_trace (pool : Option Pool) (ev : Event) (payload : fallbackPayload)
    (e : Event) (h : e ∈ (Process pool ev payload).trace) : e = ev := by
  cases pool with
  | none => simp [Process] at h
  | some p => simpa [Process] using h

/-- No run of `Stem` reads the dictionary. -/
theorem Stem_no_lookup (l : Lemmingo) (word k : String) :
    Event.lookup k ∉ (l.Stem word).trace := by
  intro h
  unfold Lemmingo.Stem at h
  rcases mem_trace_bind _ _ _ h with h | ⟨a, -, h⟩
  · have := Process_trace _ _ _ _ h
    simp at this
  · split at h
    · simp [Run.pure] at h
    · rcases mem_trace_bind _ _ _ h with h | ⟨b, -, h⟩
      · have := Process_trace _ _ _ _ h
        simp at this
      · simp [Run.pure] at h

/-- Every key `Lemma` looks up ends in a space followed by the upper-cased `pos`. -/
theorem Lemma_lookup_key (E : Env) (l : Lemmingo) (word pos k : String)
    (h : Event.lookup k ∈ (l.Lemma E word pos).trace) :
    ∃ w, k = w ++ " " ++ E.ToUpper pos := by
  unfold Lemmingo.Lemma at h
  rcases mem_trace_bind _ _ _ h with h | ⟨w, -, h⟩
  · split at h
    · have := Process_trace _ _ _ _ h
      simp at this
    · simp [Run.pure] at h
  · rcases mem_trace_bind _ _ _ h with h | ⟨r, -, h⟩
    · simp only [Lemmingo.lookup, List.mem_singleton, Event.lookup.injEq] at h
      exact ⟨w, h⟩
    · exfalso
      simp only at h
      split at h
      · simp [Run.pure] at h
      · split at h
        · rcases mem_trace_bind _ _ _ h with h | ⟨s, -, h⟩
          · exact Stem_no_lookup l w k h
          · split at h <;> simp [Run.pure] at h
        · simp [Run.pure] at h

theorem asciiUpper_eq_empty (s : String) (h : asciiUpper s = "") : s = "" := by
  have h2 := congrArg String.data h
  simp only [asciiUpper, List.map_eq_nil_iff] at h2
  exact String.ext (by simpa using h2)

/-! ## Lines and the last write -/

theorem fieldsOf_of_Split (mapPos : Option (String → String × Bool))
    (text w lm t : String) (rest : List String)
    (h : Split text ' ' = w :: lm :: t :: rest) :
    fieldsOf mapPos text = some (w, lm, filedPos mapPos t) := by
  unfold fieldsOf
  rw [h]

theorem fieldsOf_some_inv (mapPos : Option (String → String × Bool))
    (text : String) (e : String × String × String) (h : fieldsOf mapPos text = some e) :
    ∃ w lm t rest, Split text ' ' = w :: lm :: t :: rest ∧
      e = (w, lm, filedPos mapPos t) := by
  unfold fieldsOf at h
  split at h
  · rename_i w lm t rest hs
    exact ⟨w, lm, t, rest, hs, by simpa using h.symm⟩
  · simp at h

theorem lastLemma_isSome (mapPos : Option (String → String × Bool)) (lines : List String)
    (text w lm u : String) (ht : text ∈ lines) (hf : fieldsOf mapPos text = some (w, lm, u)) :
    (lastLemma mapPos lines w u).isSome = true := by
  unfold lastLemma
  have hsome : ((lines.filterMap (fieldsOf mapPos)).reverse.find?
      (fun e => decide (e.1 = w ∧ e.2.2 = u))).isSome = true := by
    rw [List.find?_isSome]
    refine ⟨(w, lm, u), ?_, by simp⟩
    simp only [List.mem_reverse, List.mem_filterMap]
    exact ⟨text, ht, hf⟩
  obtain ⟨e, he⟩ := Option.isSome_iff_exists.mp hsome
  rw [he]
  rfl

theorem lastLemma_of_split (mapPos : Option (String → String × Bool))
    (pre post : List String) (text w lm u : String)
    (hf : fieldsOf mapPos text = some (w, lm, u))
    (hpost : ∀ text' ∈ post, ∀ e, fieldsOf mapPos text' = some e → ¬ (e.1 = w ∧ e.2.2 = u)) :
    lastLemma mapPos (pre ++ text :: post) w u = some lm := by
  unfold lastLemma
  have hnone : (post.filterMap (fieldsOf mapPos)).reverse.find?
      (fun e => decide (e.1 = w ∧ e.2.2 = u)) = none := by
    rw [List.find?_eq_none]
    intro e he
    simp only [List.mem_reverse, List.mem_filterMap] at he
    obtain ⟨text', ht', hf'⟩ := he
    simpa using hpost text' ht' e hf'
  rw [List.filterMap_append, List.filterMap_cons, hf, List.reverse_append, List.reverse_cons,
    List.append_assoc, List.find?_append, hnone, List.find?_append]
  simp [List.find?]

theorem loadMapPos_empty (E : Env) (tl : String) : loadMapPos E "" tl = Except.ok none := by
  simp [loadMapPos]

theorem loadMapPos_registered (E : Env) (tn tl : String) (hn : tn ≠ "")
    (hreg : (tagset.tagsetMapping tn (E.langBase tl)).2 = none) :
    loadMapPos E tn tl =
      Except.ok (some (tagset.lookupIn (tagset.tagsetMapping tn (E.langBase tl)).1)) := by
  unfold loadMapPos tagset.MapPos
  simp only [hn, ne_eq, not_false_eq_true, if_true]
  cases hm : tagset.tagsetMapping tn (E.langBase tl) with
  | mk tbl e =>
    simp only [hm] at hreg
    subst hreg
    rfl

theorem store_at_line (mapPos : Option (String → String × Bool))
    (hm : ∀ f, mapPos = some f → ∀ t, ' ' ∉ (f t).1.data)
    (pre post : List String) (text w lm u : String)
    (hf : fieldsOf mapPos text = some (w, lm, u)) :
    (storeOf ((pre ++ text :: post).filterMap (entryOf mapPos)) Dict.empty
        (w ++ " " ++ u)).isSome = true ∧
    ((∀ text' ∈ post, ∀ e ∈ fieldsOf mapPos text', ¬ (e.1 = w ∧ e.2.2 = u)) →
      storeOf ((pre ++ text :: post).filterMap (entryOf mapPos)) Dict.empty
        (w ++ " " ++ u) = some lm) := by
  rw [store_eq_lastLemma mapPos hm]
  exact ⟨lastLemma_isSome mapPos _ text w lm u (by simp) hf,
    fun h => lastLemma_of_split mapPos pre post text w lm u hf
      (fun text' ht' e he => h text' ht' e he)⟩

theorem storeOf_key_mem (entries : List (String × String)) (k : String)
    (h : (storeOf entries Dict.empty k).isSome = true) : ∃ v, (k, v) ∈ entries := by
  rw [storeOf_apply] at h
  cases hf : entries.reverse.find? (fun e => decide (e.1 = k)) with
  | none => simp [hf, Dict.empty] at h
  | some e =>
    have hmem := List.mem_of_find?_eq_some hf
    have hk := List.find?_some hf
    simp only [decide_eq_true_eq] at hk
    refine ⟨e.2, ?_⟩
    rw [← hk]
    simpa using hmem

/-! ## The registry of tagsets -/

theorem sep_chars_inj (c : Char) : ∀ (a x b y : List Char), c ∉ a → c ∉ b →
    a ++ c :: b = x ++ c :: y → a = x ∧ b = y := by
  intro a
  induction a with
  | nil =>
    intro x b y _ hb h
    cases x with
    | nil => simpa using h
    | cons d x =>
      simp only [List.nil_append, List.cons_append, List.cons.injEq] at h
      obtain ⟨rfl, rfl⟩ := h
      simp at hb
  | cons d a ih =>
    intro x b y ha hb h
    simp only [List.mem_cons, not_or] at ha
    cases x with
    | nil =>
      simp only [List.nil_append, List.cons_append, List.cons.injEq] at h
      exact absurd h.1.symm ha.1
    | cons d' x =>
      simp only [List.cons_append, List.cons.injEq] at h
      obtain ⟨rfl, h⟩ := h
      obtain ⟨rfl, rfl⟩ := ih x b y ha.2 hb h
      exact ⟨rfl, rfl⟩

theorem mappingKey_inj (a b tn lang : String) (ha : '_' ∉ a.data) (hb : '_' ∉ b.data) :
    tn ++ "_" ++ lang = a ++ "_" ++ b ↔ tn = a ∧ lang = b := by
  constructor
  · intro h
    have h2 : a.data ++ '_' :: b.data = tn.data ++ '_' :: lang.data := by
      have := congrArg String.data h
      simpa [String.data_append] using this.symm
    obtain ⟨h3, h4⟩ := sep_chars_inj '_' _ _ _ _ ha hb h2
    exact ⟨(String.ext h3).symm, (String.ext h4).symm⟩
  · rintro ⟨rfl, rfl⟩
    rfl

theorem tagsetMapping_eq (tn lang : String) :
    tagset.tagsetMapping tn lang =
      if tn = "penn" ∧ lang = "en" then (tagset.pennEn, none)
      else if tn = "freeling" ∧ lang = "en" then (tagset.freelingEn, none)
      else ([], some ("Tagset mapping for `" ++ (tn ++ "_" ++ lang) ++ "` was not found!")) := by
  have h1 : tn ++ "_" ++ lang = "penn_en" ↔ tn = "penn" ∧ lang = "en" :=
    mappingKey_inj "penn" "en" tn lang (by decide) (by decide)
  have h2 : tn ++ "_" ++ lang = "freeling_en" ↔ tn = "freeling" ∧ lang = "en" :=
    mappingKey_inj "freeling" "en" tn lang (by decide) (by decide)
  unfold tagset.tagsetMapping
  simp only [List.lookup]
  by_cases hp : tn = "penn" ∧ lang = "en"
  · have hk : (tn ++ "_" ++ lang == "penn_en") = true := by simpa using h1.mpr hp
    simp [hk, hp]
  · have hk : (tn ++ "_" ++ lang == "penn_en") = false := by
      simpa using fun h => hp (h1.mp h)
    by_cases hf : tn = "freeling" ∧ lang = "en"
    · have hk2 : (tn ++ "_" ++ lang == "freeling_en") = true := by simpa using h2.mpr hf
      simp [hk, hk2, hp, hf]
    · have hk2 : (tn ++ "_" ++ lang == "freeling_en") = false := by
        simpa using fun h => hf (h2.mp h)
      simp [hk, hk2, hp, hf]

/-- `MapPos` as a case distinction on the two registered pairs. -/
theorem MapPos_eq (E : Env) (tn lt : String) :
    tagset.MapPos E tn lt =
      if tn = "penn" ∧ E.langBase lt = "en" then Except.ok (tagset.lookupIn tagset.pennEn)
      else if tn = "freeling" ∧ E.langBase lt = "en" then
        Except.ok (tagset.lookupIn tagset.freelingEn)
      else Except.error (Panic.err
        ("Tagset mapping for `" ++ (tn ++ "_" ++ E.langBase lt) ++ "` was not found!")) := by
  unfold tagset.MapPos
  simp only [tagsetMapping_eq]
  by_cases hp : tn = "penn" ∧ E.langBase lt = "en"
  · simp [hp]
  · by_cases hf : tn = "freeling" ∧ E.langBase lt = "en"
    · simp [hp, hf]
    · simp [hp, hf]

theorem lookup_eq_some_iff_mem (tbl : List (String × String))
    (hnd : (tbl.map Prod.fst).Nodup) (t v : String) :
    tbl.lookup t = some v ↔ (t, v) ∈ tbl := by
  induction tbl with
  | nil => simp
  | cons e es ih =>
    obtain ⟨k, w⟩ := e
    simp only [List.map_cons, List.nodup_cons, List.mem_map, not_exists, not_and] at hnd
    by_cases h : t = k
    · subst h
      simp only [List.lookup, beq_self_eq_true, Option.some.injEq, List.mem_cons, Prod.mk.injEq,
        true_and]
      constructor
      · intro hw; exact Or.inl hw.symm
      · rintro (hw | hmem)
        · exact hw.symm
        · exact absurd rfl (hnd.1 (t, v) hmem)
    · have hb : (t == k) = false := by simpa using h
      simp only [List.lookup, hb, List.mem_cons, Prod.mk.injEq, h, false_and, false_or]
      exact ih hnd.2

theorem pennEn_keys_nodup : (tagset.pennEn.map Prod.fst).Nodup := by decide

theorem freelingEn_keys_nodup : (tagset.freelingEn.map Prod.fst).Nodup := by decide

theorem lookupIn_spec (tbl : List (String × String)) (hnd : (tbl.map Prod.fst).Nodup)
    (t : String) :
    (∀ v, (t, v) ∈ tbl → tagset.lookupIn tbl t = (v, true)) ∧
    ((∀ v, (t, v) ∉ tbl) → tagset.lookupIn tbl t = ("", false)) := by
  constructor
  · intro v hv
    have := (lookup_eq_some_iff_mem tbl hnd t v).mpr hv
    simp [tagset.lookupIn, this]
  · intro hnone
    cases hl : tbl.lookup t with
    | none => simp [tagset.lookupIn, hl]
    | some v => exact absurd ((lookup_eq_some_iff_mem tbl hnd t v).mp hl) (hnone v)

/-! ## Construction -/

/-- A dictionary that does not open makes `loadDict` return an error value, before
any tagset is looked at. -/
theorem loadDict_unopenable (E : Env) (dictPath tn tl : String)
    (hopen : ∀ p, resolvePath E dictPath = Except.ok p → ∃ e, E.Open p = Except.error e) :
    ∃ e, loadDict E dictPath tn tl = Except.ok (Dict.empty, some e) := by
  unfold loadDict
  cases hr : resolvePath E dictPath with
  | error e => exact ⟨e, rfl⟩
  | ok p =>
    obtain ⟨e, he⟩ := hopen p hr
    exact ⟨e, by simp [he]⟩

/-- A dictionary that opens under an unregistered, non-empty tagset name makes
`loadDict` panic. -/
theorem loadDict_unregistered (E : Env) (dictPath tn tl p : String) (file : File)
    (hp : resolvePath E dictPath = Except.ok p) (ho : E.Open p = Except.ok file)
    (hn : tn ≠ "")
    (hreg : ¬ ((tn = "penn" ∨ tn = "freeling") ∧ E.langBase tl = "en")) :
    ∃ msg, loadDict E dictPath tn tl = Except.error (Panic.err msg) := by
  have h1 : ¬ (tn = "penn" ∧ E.langBase tl = "en") := fun h => hreg ⟨Or.inl h.1, h.2⟩
  have h2 : ¬ (tn = "freeling" ∧ E.langBase tl = "en") := fun h => hreg ⟨Or.inr h.1, h.2⟩
  have hm : loadMapPos E tn tl = Except.error (Panic.err
      ("Tagset mapping for `" ++ (tn ++ "_" ++ E.langBase tl) ++ "` was not found!")) := by
    unfold loadMapPos
    rw [if_pos hn, MapPos_eq, if_neg h1, if_neg h2]
  refine ⟨"Tagset mapping for `" ++ (tn ++ "_" ++ E.langBase tl) ++ "` was not found!", ?_⟩
  simp [loadDict, hp, ho, hm]

/-- On an instance built with the stemmer enabled `Lemma` always returns, with a
nil error. -/
theorem Lemma_with_stemmer_returns (E : Env) (dictPath sl pl tn tl : String)
    (pf conc : Bool) (l : Lemmingo) (word pos : String)
    (hb : Build E dictPath true sl pf pl tn tl conc = Except.ok (l, none)) :
    ∃ s f, (l.Lemma E word pos).out = Except.ok (s, f, none) := by
  obtain ⟨-, hsl, hpl, hsf, hpf, -, hst, -, hsp, -⟩ := Build_ok_inv hb
  obtain ⟨st, hst1, hst2⟩ := hst rfl
  rw [← hsl] at hst1
  cases pf with
  | false =>
    by_cases hl : (l.dict (E.ToLower word ++ " " ++ E.ToUpper pos)).getD "" = ""
    · refine ⟨st.Stem (E.ToLower word),
        (l.dict (E.ToLower word ++ " " ++ E.ToUpper pos)).isSome, ?_⟩
      simp [Lemmingo.Lemma, hsf, hpf, Lemmingo.lookup, Dict.index, hl, Lemmingo.Stem,
        stem_of_pool hst2 hst1, Run.pure]
    · refine ⟨(l.dict (E.ToLower word ++ " " ++ E.ToUpper pos)).getD "",
        (l.dict (E.ToLower word ++ " " ++ E.ToUpper pos)).isSome, ?_⟩
      simp [Lemmingo.Lemma, hsf, hpf, Lemmingo.lookup, Dict.index, hl, Run.pure]
  | true =>
    obtain ⟨sp, hsp1, hsp2⟩ := hsp rfl
    rw [← hpl] at hsp1
    by_cases hl : (l.dict (E.ToLower word ++ " " ++ E.ToUpper pos)).getD "" = ""
    · refine ⟨sp.Correct (st.Stem (E.ToLower word)),
        (l.dict (E.ToLower word ++ " " ++ E.ToUpper pos)).isSome, ?_⟩
      simp [Lemmingo.Lemma, hsf, hpf, Lemmingo.lookup, Dict.index, hl, Lemmingo.Stem,
        stem_of_pool hst2 hst1, spellCheck_of_pool hsp2 hsp1, Run.pure]
    · refine ⟨(l.dict (E.ToLower word ++ " " ++ E.ToUpper pos)).getD "",
        (l.dict (E.ToLower word ++ " " ++ E.ToUpper pos)).isSome, ?_⟩
      simp [Lemmingo.Lemma, hsf, hpf, Lemmingo.lookup, Dict.index, hl, Run.pure]

/-! ## Errors a call can return -/

theorem Run.bind_out_ok {α β : Type} (r : Run α) (f : α → Run β) (b : β)
    (h : (r.bind f).out = Except.ok b) : ∃ a, r.out = Except.ok a ∧ (f a).out = Except.ok b := by
  unfold Run.bind at h
  cases hr : r.out with
  | error p => simp [hr] at h
  | ok a =>
    simp only [hr] at h
    exact ⟨a, rfl, h⟩

/-- Whenever `Stem` returns, its error result is nil. -/
theorem Stem_error_nil (l : Lemmingo) (word s : String) (e : GoError)
    (h : (l.Stem word).out = Except.ok (s, e)) : e = none := by
  unfold Lemmingo.Stem at h
  obtain ⟨w, -, h⟩ := Run.bind_out_ok _ _ _ h
  split at h
  · simp only [Run.pure, Except.ok.injEq, Prod.mk.injEq] at h
    exact h.2.symm
  · obtain ⟨w2, -, h⟩ := Run.bind_out_ok _ _ _ h
    simp only [Run.pure, Except.ok.injEq, Prod.mk.injEq] at h
    exact h.2.symm

/-- With the stemmer fallback enabled, whenever `Lemma` returns, its error result
is nil. -/
theorem Lemma_error_nil_with_stemmer (E : Env) (l : Lemmingo) (word pos s : String)
    (f : Bool) (e : GoError) (hs : l.stemmerFallback = true)
    (h : (l.Lemma E word pos).out = Except.ok (s, f, e)) : e = none := by
  unfold Lemmingo.Lemma at h
  obtain ⟨w, -, h⟩ := Run.bind_out_ok _ _ _ h
  obtain ⟨r, -, h⟩ := Run.bind_out_ok _ _ _ h
  simp only [hs, Bool.true_eq_false, and_false, if_false, and_true] at h
  split at h
  · obtain ⟨st, hst, h⟩ := Run.bind_out_ok _ _ _ h
    obtain ⟨s1, e1⟩ := st
    have he1 := Stem_error_nil l w s1 e1 hst
    subst he1
    simp only [Run.pure, Except.ok.injEq, Prod.mk.injEq] at h
    exact h.2.2.symm
  · simp only [Run.pure, Except.ok.injEq, Prod.mk.injEq] at h
    exact h.2.2.symm

/-- A stemmer pool whose work function cannot load its backend makes `Stem` panic
after reaching the worker. -/
theorem Stem_backend_missing (E : Env) (l : Lemmingo) (n : Nat) (word msg : String)
    (hp : l.stemmerPool = some ⟨n, stemmerWork E⟩)
    (hb : E.snowballNew l.stemmerLang = Except.error msg) :
    l.Stem word = ⟨[Event.stem l.stemmerLang word], Except.error Panic.nilDeref⟩ := by
  simp [Lemmingo.Stem, Lemmingo.stem, Process, hp, stemmerWork, loadStemmer, hb]

/-- In the world `Build` ran in, an instance it returned runs as itself. -/
theorem inWorld_of_built (E : Env) (dictPath sl pl tn tl : String) (sf pf conc : Bool)
    (l : Lemmingo) (hb : Build E dictPath sf sl pf pl tn tl conc = Except.ok (l, none)) :
    l.inWorld E = l := by
  obtain ⟨-, -, -, -, -, -, hst, hsn, hsp, hpn⟩ := Build_ok_inv hb
  have h1 : l.stemmerPool.map (fun p => (⟨p.size, stemmerWork E⟩ : Pool)) = l.stemmerPool := by
    cases sf with
    | false => rw [hsn rfl]; rfl
    | true =>
      obtain ⟨st, -, h⟩ := hst rfl
      rw [h]; rfl
  have h2 : l.spellerPool.map (fun p => (⟨p.size, spellerWork E⟩ : Pool)) = l.spellerPool := by
    cases pf with
    | false => rw [hpn rfl]; rfl
    | true =>
      obtain ⟨sp, -, h⟩ := hsp rfl
      rw [h]; rfl
  unfold Lemmingo.inWorld
  rw [h1, h2]

/-- An instance built with the stemmer enabled, run in a later world in which the
stemmer for its language cannot be created, panics in `Stem` after reaching the
worker. -/
theorem Stem_in_world_without_backend (E E' : Env) (dictPath sl pl tn tl : String)
    (pf conc : Bool) (l : Lemmingo) (word msg : String)
    (hb : Build E dictPath true sl pf pl tn tl conc = Except.ok (l, none))
    (hfail : E'.snowballNew sl = Except.error msg) :
    (l.inWorld E').Stem word = ⟨[Event.stem sl word], Except.error Panic.nilDeref⟩ := by
  obtain ⟨-, hsl, -, -, -, -, hst, -, -, -⟩ := Build_ok_inv hb
  obtain ⟨st, -, hpool⟩ := hst rfl
  have hp : (l.inWorld E').stemmerPool =
      some ⟨if conc = true then E.NumCPU else 1, stemmerWork E'⟩ := by
    simp [Lemmingo.inWorld, hpool]
  have hl : (l.inWorld E').stemmerLang = sl := hsl
  rw [← hl] at hfail
  rw [Stem_backend_missing E' (l.inWorld E') _ word msg hp hfail, hl]

/-! ## Closing -/

/-- `Close` returns exactly when both pools exist, and it then releases the
stemmer pool and the speller pool, in that order. -/
theorem Close_ok_iff (l : Lemmingo) :
    (l.Close.2 = Except.ok () ↔ l.stemmerPool.isSome = true ∧ l.spellerPool.isSome = true) ∧
    (l.Close.2 = Except.ok () → l.Close.1 = [PoolKind.stemmer, PoolKind.speller]) := by
  cases h1 : l.stemmerPool <;> cases h2 : l.spellerPool <;>
    simp [Lemmingo.Close, closePool, h1, h2]

/-! ## Counting spaces -/

theorem splitChars_length (sep : Char) (cs : List Char) :
    (splitChars sep cs).length = cs.count sep + 1 := by
  induction cs with
  | nil => simp [splitChars]
  | cons c cs ih =>
    unfold splitChars
    by_cases hc : c = sep
    · subst hc
      simp [ih]
    · have hc' : ¬ sep = c := fun h => hc h.symm
      simp only [hc, if_false]
      cases hsp : splitChars sep cs with
      | nil => simp [hsp] at ih
      | cons g gs =>
        rw [hsp] at ih
        simp only [List.length_cons] at ih ⊢
        rw [ih, List.count_cons_of_ne hc']

theorem Split_length (text : String) (sep : Char) :
    (Split text sep).length = text.data.count sep + 1 := by
  simp [Split, splitChars_length]

theorem loadLines_short_line (mapPos : Option (String → String × Bool))
    (lines : List String) (d0 : Dict)
    (h : ∃ text ∈ lines, entryOf mapPos text = none) :
    loadLines mapPos d0 lines = Except.error Panic.indexOutOfRange := by
  induction lines generalizing d0 with
  | nil => simp at h
  | cons text rest ih =>
    cases he : entryOf mapPos text with
    | none => simp [loadLines, loadLine, he]
    | some e =>
      obtain ⟨t, ht, hte⟩ := h
      simp only [List.mem_cons] at ht
      rcases ht with rfl | ht
      · rw [he] at hte
        cases hte
      · simp only [loadLines, loadLine, he]
        exact ih _ ⟨t, ht, hte⟩

theorem entryOf_isSome_iff (mapPos : Option (String → String × Bool)) (text : String) :
    (entryOf mapPos text).isSome = true ↔ 2 ≤ text.data.count ' ' := by
  constructor
  · intro h
    have := length_of_entryOf_isSome mapPos text h
    rw [Split_length] at this
    omega
  · intro h
    apply entryOf_isSome_of_length
    rw [Split_length]
    omega

theorem demoConcurrent_build :
    Build demoEnv "/dicts/en.lmm" true "english" true "en" "" "" true
      = Except.ok (demoConcurrent, none) := rfl

/-! ## The two tables -/

theorem pennEn_values_universal :
    ∀ v ∈ tagset.pennEn.map Prod.snd, v ∈ tagset.universalTags := by decide

theorem freelingEn_values_universal :
    ∀ v ∈ tagset.freelingEn.map Prod.snd, v ∈ tagset.universalTags := by decide

theorem universalTags_upper :
    ∀ v ∈ tagset.universalTags,
      v ≠ "" ∧ asciiUpper v = v ∧ ∀ c ∈ v.data, c.isLower = false := by decide

theorem tables_agree_on_keys :
    ∀ e ∈ tagset.pennEn, ∀ v, tagset.freelingEn.lookup e.1 = some v → v = e.2 := by decide

theorem loadMapPos_penn (E : Env) (tl : String) (h : E.langBase tl = "en") :
    loadMapPos E "penn" tl = Except.ok (some (tagset.lookupIn tagset.pennEn)) := by
  unfold loadMapPos
  rw [if_pos (by decide), MapPos_eq, if_pos ⟨rfl, h⟩]

theorem loadMapPos_freeling (E : Env) (tl : String) (h : E.langBase tl = "en") :
    loadMapPos E "freeling" tl = Except.ok (some (tagset.lookupIn tagset.freelingEn)) := by
  unfold loadMapPos
  have hne : ¬ (("freeling" : String) = "penn" ∧ E.langBase tl = "en") :=
    fun hh => absurd hh.1 (by decide)
  rw [if_pos (by decide), MapPos_eq, if_neg hne, if_pos ⟨rfl, h⟩]

/-! ## Properties stated by the specification -/

/-- C1. The dictionary of the demo world holds an entry for ("laboratory", "NN")
whose lemma field is empty. Without fallbacks `Lemma` reports that entry as
missing; with the stemmer enabled it calls the stemmer and returns the stem with
`found = true`. In neither configuration is the result `("", true, nil)`. -/
theorem empty_lemma_entry_not_returned :
    (demoLemmingo false false).dict "laboratory NN" = some "" ∧
    (demoLemmingo false false).Lemma demoEnv "laboratory" "NN" =
      ⟨[Event.lookup "laboratory NN"],
        Except.ok ("laboratory", false, some "Word's (laboratory) lemma wasn't found!")⟩ ∧
    (demoLemmingo true false).dict "laboratory NN" = some "" ∧
    (demoLemmingo true false).Lemma demoEnv "laboratory" "NN" =
      ⟨[Event.lookup "laboratory NN", Event.stem "english" "laboratory"],
        Except.ok ("laboratori", true, none)⟩ := by
  refine ⟨?_, ?_, ?_, ?_⟩ <;> rfl

/-- C2. Fallback ordering: on a built instance with the stemmer enabled, a word
whose key is not in the dictionary is looked up first (under the lower-cased
word, not a corrected one), then stemmed, then, only if the speller is enabled,
the stem is corrected; the result is the stem, or the corrected stem, with
`found = false` and no error. -/
theorem fallback_ordering (E : Env) (dictPath sl pl tn tl : String) (pf conc : Bool)
    (l : Lemmingo) (word pos : String)
    (hb : Build E dictPath true sl pf pl tn tl conc = Except.ok (l, none))
    (hmiss : l.dict (E.ToLower word ++ " " ++ E.ToUpper pos) = none) :
    ∃ st, E.snowballNew sl = Except.ok st ∧
      (pf = false →
        l.Lemma E word pos =
          ⟨[Event.lookup (E.ToLower word ++ " " ++ E.ToUpper pos),
            Event.stem sl (E.ToLower word)],
           Except.ok (st.Stem (E.ToLower word), false, none)⟩) ∧
      (pf = true → ∃ sp, E.aspellNew pl = Except.ok sp ∧
        l.Lemma E word pos =
          ⟨[Event.lookup (E.ToLower word ++ " " ++ E.ToUpper pos),
            Event.stem sl (E.ToLower word),
            Event.spell pl (st.Stem (E.ToLower word))],
           Except.ok (sp.Correct (st.Stem (E.ToLower word)), false, none)⟩) := by
  obtain ⟨-, hsl, hpl, hsf, hpf, -, hst, -, hsp, -⟩ := Build_ok_inv hb
  obtain ⟨st, hst1, hst2⟩ := hst rfl
  refine ⟨st, hst1, ?_, ?_⟩
  · intro h
    subst h
    rw [← hsl] at hst1
    simp [Lemmingo.Lemma, hsf, hpf, Lemmingo.lookup, Dict.index, hmiss, Lemmingo.Stem,
      stem_of_pool hst2 hst1, Run.pure, hsl]
  · intro h
    subst h
    obtain ⟨sp, hsp1, hsp2⟩ := hsp rfl
    refine ⟨sp, hsp1, ?_⟩
    rw [← hsl] at hst1
    rw [← hpl] at hsp1
    simp [Lemmingo.Lemma, hsf, hpf, Lemmingo.lookup, Dict.index, hmiss, Lemmingo.Stem,
      stem_of_pool hst2 hst1, spellCheck_of_pool hsp2 hsp1, Run.pure, hsl, hpl]

/-- C2 at a concrete input: "Teenager" with tag "nn" in the demo world, stemmer
and speller both enabled. -/
theorem fallback_ordering_witness :
    ∃ st, demoEnv.snowballNew "english" = Except.ok st ∧
      (true = false →
        (demoLemmingo true true).Lemma demoEnv "Teenager" "nn" =
          ⟨[Event.lookup (demoEnv.ToLower "Teenager" ++ " " ++ demoEnv.ToUpper "nn"),
            Event.stem "english" (demoEnv.ToLower "Teenager")],
           Except.ok (st.Stem (demoEnv.ToLower "Teenager"), false, none)⟩) ∧
      (true = true → ∃ sp, demoEnv.aspellNew "en" = Except.ok sp ∧
        (demoLemmingo true true).Lemma demoEnv "Teenager" "nn" =
          ⟨[Event.lookup (demoEnv.ToLower "Teenager" ++ " " ++ demoEnv.ToUpper "nn"),
            Event.stem "english" (demoEnv.ToLower "Teenager"),
            Event.spell "en" (st.Stem (demoEnv.ToLower "Teenager"))],
           Except.ok (sp.Correct (st.Stem (demoEnv.ToLower "Teenager")), false, none)⟩) :=
  fallback_ordering demoEnv "/dicts/en.lmm" "english" "en" "" "" true false
    (demoLemmingo true true) "Teenager" "nn" (demo_build true true) (by rfl)

/-- C3. With the stemmer disabled, `Lemma` returns a non-nil error for a key that
is present in the dictionary: the entry for ("laboratory", "NN") has an empty
lemma field. -/
theorem error_without_stemmer_on_present_key :
    ((demoLemmingo false false).dict
        (demoEnv.ToLower "Laboratory" ++ " " ++ demoEnv.ToUpper "nn")).isSome = true ∧
    (demoLemmingo false false).stemmerFallback = false ∧
    ((demoLemmingo false false).Lemma demoEnv "Laboratory" "nn").out =
      Except.ok ("laboratory", false, some "Word's (laboratory) lemma wasn't found!") := by
  refine ⟨?_, ?_, ?_⟩ <;> rfl

/-- C4. Speller-only configuration of the demo world: "labratory" is corrected to
"laboratory", the key ("laboratory", "NN") is a hit in the dictionary (with an
empty lemma field), and `Lemma` returns the corrected word with `found = false`
and an error instead of `(lemma, true, nil)`. -/
theorem speller_only_hit_reported_missing :
    demoSpeller.Correct (demoEnv.ToLower "labratory") = "laboratory" ∧
    (demoLemmingo false true).dict ("laboratory" ++ " " ++ demoEnv.ToUpper "NN") = some "" ∧
    (demoLemmingo false true).Lemma demoEnv "labratory" "NN" =
      ⟨[Event.spell "en" "labratory", Event.lookup "laboratory NN"],
        Except.ok ("laboratory", false, some "Word's (laboratory) lemma wasn't found!")⟩ := by
  refine ⟨?_, ?_, ?_⟩ <;> rfl

/-- C5. An instance built with the stemmer fallback disabled has no stemmer pool,
and `Stem` on it panics on the nil pool instead of returning a stem; this is so
with the speller enabled as well. -/
theorem Stem_without_stemmer_pool_panics :
    Build demoEnv "/dicts/en.lmm" false "english" false "en" "" "" false
      = Except.ok (demoLemmingo false false, none) ∧
    (demoLemmingo false false).stemmerPool.isNone = true ∧
    (demoLemmingo false false).Stem "teenager" = ⟨[], Except.error Panic.nilDeref⟩ ∧
    (demoLemmingo false true).Stem "teenager" = ⟨[], Except.error Panic.nilDeref⟩ := by
  refine ⟨?_, ?_, ?_, ?_⟩ <;> rfl

/-- C6. Case-insensitivity: `Lemma` depends on its word only through its
lower-casing and on its tag only through its upper-casing, in every
configuration and for every dictionary; the whole run (result, found flag,
error, panic, trace) is the same. In particular, where lower-casing and
upper-casing leave an already converted string alone,
`Lemma(w, p) = Lemma(lowercase(w), uppercase(p))`. -/
theorem case_insensitive (E : Env) (l : Lemmingo) (w1 p1 w2 p2 : String)
    (hw : E.ToLower w1 = E.ToLower w2) (hp : E.ToUpper p1 = E.ToUpper p2) :
    l.Lemma E w1 p1 = l.Lemma E w2 p2 ∧
    (E.ToLower (E.ToLower w1) = E.ToLower w1 → E.ToUpper (E.ToUpper p1) = E.ToUpper p1 →
      l.Lemma E w1 p1 = l.Lemma E (E.ToLower w1) (E.ToUpper p1)) := by
  constructor
  · simp only [Lemmingo.Lemma, hw, hp]
  · intro h1 h2
    simp only [Lemmingo.Lemma, h1, h2]

/-- C6 at a concrete input: "Are"/"vbp" against "are"/"VBP" in the demo world. -/
theorem case_insensitive_witness :
    (demoLemmingo false false).Lemma demoEnv "Are" "vbp"
      = (demoLemmingo false false).Lemma demoEnv "are" "VBP" ∧
    (demoLemmingo false false).Lemma demoEnv "Are" "vbp"
      = (demoLemmingo false false).Lemma demoEnv (demoEnv.ToLower "Are") (demoEnv.ToUpper "vbp") ∧
    ((demoLemmingo false false).Lemma demoEnv "are" "VBP").out = Except.ok ("be", true, none) :=
  ⟨(case_insensitive demoEnv (demoLemmingo false false) "Are" "vbp" "are" "VBP"
      (by decide) (by decide)).1,
   (case_insensitive demoEnv (demoLemmingo false false) "Are" "vbp" "are" "VBP"
      (by decide) (by decide)).2 (by decide) (by decide),
   rfl⟩

/-- C7. Speller adapter: with a speller loaded for the payload language, the work
function of the speller pool returns the word when `Check` accepts it, the word
when `Check` rejects it and there is no suggestion, and the first suggestion
otherwise; so a correctly spelled word is a fixed point, also when it goes
through the pool by `spellCheck`. -/
theorem speller_adapter (E : Env) (lang : String) (sp : Speller) (word : String)
    (hsp : E.aspellNew lang = Except.ok sp) :
    (sp.Check word = true → spellerWork E ⟨lang, word⟩ = Except.ok word) ∧
    (sp.Check word = false → sp.Suggest word = [] →
      spellerWork E ⟨lang, word⟩ = Except.ok word) ∧
    (sp.Check word = false → ∀ s rest, sp.Suggest word = s :: rest →
      spellerWork E ⟨lang, word⟩ = Except.ok s) ∧
    (sp.Check word = true → ∀ (l : Lemmingo) (n : Nat), l.spellerLang = lang →
      l.spellerPool = some ((loadSpellerPool E 1).SetSize n) →
      (l.spellCheck word).out = Except.ok word) := by
  refine ⟨?_, ?_, ?_, ?_⟩
  · intro hc
    simp [spellerWork_ok hsp, Speller.Correct, hc]
  · intro hc hs
    simp [spellerWork_ok hsp, Speller.Correct, hc, hs]
  · intro hc s rest hs
    simp [spellerWork_ok hsp, Speller.Correct, hc, hs]
  · intro hc l n hl hpool
    subst hl
    have hp : l.spellerPool = some ⟨n, spellerWork E⟩ := hpool
    simp [spellCheck_of_pool hp hsp, Speller.Correct, hc]

/-- C7 at concrete inputs: in the demo world "typo" is accepted and unchanged,
"ababagalamaga" has no suggestion and is unchanged, "teenag" becomes its first
suggestion "teenage". -/
theorem speller_adapter_witness :
    spellerWork demoEnv ⟨"en", "typo"⟩ = Except.ok "typo" ∧
    spellerWork demoEnv ⟨"en", "ababagalamaga"⟩ = Except.ok "ababagalamaga" ∧
    spellerWork demoEnv ⟨"en", "teenag"⟩ = Except.ok "teenage" ∧
    ((demoLemmingo true true).spellCheck "typo").out = Except.ok "typo" :=
  ⟨(speller_adapter demoEnv "en" demoSpeller "typo" rfl).1 (by decide),
   (speller_adapter demoEnv "en" demoSpeller "ababagalamaga" rfl).2.1 (by decide) (by decide),
   (speller_adapter demoEnv "en" demoSpeller "teenag" rfl).2.2.1 (by decide)
     "teenage" ["teenager"] (by decide),
   (speller_adapter demoEnv "en" demoSpeller "typo" rfl).2.2.2 (by decide)
     (demoLemmingo true true) 1 rfl rfl⟩

/-- C8. Tag normalization at load: a dictionary file that opens, scans without
error and has at least three fields on every line loads without error (the
tagset, when named, being a registered one). A line with fields `(w, lm, t)` is
then stored, without a tagset, under `w ++ " " ++ t`, and with a tagset under
`w ++ " " ++ u`, where `u` is what the tagset table gives for `t` and the empty
string when the table has nothing for `t`; the stored value is `lm` unless a
later line has the same word and POS. A call of `Lemma` that looks up the key of
an entry with an unmapped tag has an empty upper-cased `pos`, hence an empty
`pos` when upper-casing sends only the empty string to itself. -/
theorem tag_normalization_at_load (E : Env) (dictPath tn tl p : String) (file : File)
    (hp : resolvePath E dictPath = Except.ok p) (ho : E.Open p = Except.ok file)
    (hs : file.scanErr = none)
    (h3 : ∀ text ∈ file.lines, 3 ≤ (Split text ' ').length)
    (hreg : tn ≠ "" → (tagset.tagsetMapping tn (E.langBase tl)).2 = none) :
    ∃ d, loadDict E dictPath tn tl = Except.ok (d, none) ∧
      ∀ (pre post : List String) (text w lm t : String) (rest : List String),
        file.lines = pre ++ text :: post → Split text ' ' = w :: lm :: t :: rest →
        (tn = "" →
          (d (w ++ " " ++ t)).isSome = true ∧
          ((∀ text' ∈ post, ∀ e ∈ fieldsOf none text', ¬ (e.1 = w ∧ e.2.2 = t)) →
            d (w ++ " " ++ t) = some lm)) ∧
        (tn ≠ "" →
          (d (w ++ " " ++
            ((tagset.tagsetMapping tn (E.langBase tl)).1.lookup t).getD "")).isSome = true ∧
          ((∀ text' ∈ post,
              ∀ e ∈ fieldsOf
                (some (tagset.lookupIn (tagset.tagsetMapping tn (E.langBase tl)).1)) text',
              ¬ (e.1 = w ∧
                e.2.2 = ((tagset.tagsetMapping tn (E.langBase tl)).1.lookup t).getD "")) →
            d (w ++ " " ++
              ((tagset.tagsetMapping tn (E.langBase tl)).1.lookup t).getD "") = some lm) ∧
          ((tagset.tagsetMapping tn (E.langBase tl)).1.lookup t = none →
            ((tagset.tagsetMapping tn (E.langBase tl)).1.lookup t).getD "" = "" ∧
            ∀ (l : Lemmingo) (word pos : String),
              Event.lookup (w ++ " " ++ "") ∈ (l.Lemma E word pos).trace →
              E.ToUpper pos = "" ∧ ((∀ s, E.ToUpper s = "" → s = "") → pos = ""))) := by
  by_cases hn : tn = ""
  · subst hn
    have hm := loadMapPos_empty E tl
    refine ⟨_, loadDict_ok E dictPath "" tl p file none hp ho hs hm h3, ?_⟩
    intro pre post text w lm t rest hl hsp
    refine ⟨fun _ => ?_, fun h => absurd rfl h⟩
    rw [hl]
    exact store_at_line none (fun f hf => by simp at hf) pre post text w lm t
      (fieldsOf_of_Split none text w lm t rest hsp)
  · have hm := loadMapPos_registered E tn tl hn (hreg hn)
    refine ⟨_, loadDict_ok E dictPath tn tl p file _ hp ho hs hm h3, ?_⟩
    intro pre post text w lm t rest hl hsp
    refine ⟨fun h => absurd h hn, fun _ => ?_⟩
    have hns := loadMapPos_no_space E tn tl _ hm
    have hst := store_at_line _ hns pre post text w lm _
      (fieldsOf_of_Split _ text w lm t rest hsp)
    rw [hl]
    refine ⟨hst.1, hst.2, fun hnone => ⟨by rw [hnone]; rfl, ?_⟩⟩
    intro l word pos hev
    obtain ⟨w', hk⟩ := Lemma_lookup_key E l word pos _ hev
    have hw : ' ' ∉ w.data := Split_not_mem text ' ' w (by simp [hsp])
    have he : ' ' ∉ ("" : String).data := by simp
    have hup : E.ToUpper pos = "" := ((key_inj w "" w' (E.ToUpper pos) hw he).mp hk).2.symm
    exact ⟨hup, fun hU => hU pos hup⟩

/-- C8 at a concrete input: the demo file loaded under the FreeLing tagset. The
line "am be VBP" is stored under "am VERB"; the tag of "Apple apple nn" has no
mapping, the line is stored under "Apple " and a lookup of that key comes from a
call with empty `pos`. -/
theorem tag_normalization_at_load_witness :
    ∃ d, loadDict demoEnv "/dicts/en.lmm" "freeling" "en-GB" = Except.ok (d, none) ∧
      d "am VERB" = some "be" ∧ d "Apple " = some "apple" ∧
      ∀ (l : Lemmingo) (word pos : String),
        Event.lookup "Apple " ∈ (l.Lemma demoEnv word pos).trace → pos = "" := by
  obtain ⟨d, hd, h⟩ := tag_normalization_at_load demoEnv "/dicts/en.lmm" "freeling" "en-GB"
    "/dicts/en.lmm" demoFile rfl rfl rfl (by decide) (fun _ => rfl)
  refine ⟨d, hd, ?_, ?_, ?_⟩
  · exact ((h ["are art VBP"]
      ["are be VBP", "stranger strange JJR", "laboratory  NN", "Apple apple nn",
        "caresses caress NNS"]
      "am be VBP" "am" "be" "VBP" [] rfl rfl).2 (by decide)).2.1 (by decide)
  · exact ((h ["are art VBP", "am be VBP", "are be VBP", "stranger strange JJR",
        "laboratory  NN"] ["caresses caress NNS"]
      "Apple apple nn" "Apple" "apple" "nn" [] rfl rfl).2 (by decide)).2.1 (by decide)
  · intro l word pos hev
    have hq := (((h ["are art VBP", "am be VBP", "are be VBP", "stranger strange JJR",
        "laboratory  NN"] ["caresses caress NNS"]
      "Apple apple nn" "Apple" "apple" "nn" [] rfl rfl).2 (by decide)).2.2 (by decide)).2
        l word pos hev
    exact hq.2 asciiUpper_eq_empty

/-- C9, as the code has it. The store of the demo world, loaded without a tagset,
has the key "Apple nn", which is the sixth line of the file as written: its word
is not lower-case and its POS is not upper-case. `Lemma("Apple", "nn")` without
fallbacks looks up "apple NN" and does not retrieve the entry. -/
theorem store_keys_not_case_normalized :
    Build demoEnv "/dicts/en.lmm" false "english" false "en" "" "" false
      = Except.ok (demoLemmingo false false, none) ∧
    (demoLemmingo false false).dict ("Apple" ++ " " ++ "nn") = some "apple" ∧
    demoEnv.ToLower "Apple" ≠ "Apple" ∧ demoEnv.ToUpper "nn" ≠ "nn" ∧
    (demoLemmingo false false).Lemma demoEnv "Apple" "nn" =
      ⟨[Event.lookup "apple NN"],
        Except.ok ("apple", false, some "Word's (apple) lemma wasn't found!")⟩ := by
  refine ⟨rfl, rfl, by decide, by decide, rfl⟩

/-- C9, amended. For an instance built without fallbacks from a file that opens:
every key of its store is the word field of some line, a space, and the POS that
line is filed under, exactly as they stand in the file (the tag itself or what
the tagset gives for it), with no change of case; and, without a tagset, a line
`(w, lm, t)` that no later line overwrites, whose word is its own lower-casing,
whose tag is its own upper-casing and whose lemma is not empty, is retrieved by
`Lemma(w, t)` as `(lm, true, nil)`. -/
theorem store_keys_verbatim_and_retrieval (E : Env) (dictPath sl pl tn tl p : String)
    (conc : Bool) (file : File) (l : Lemmingo)
    (hb : Build E dictPath false sl false pl tn tl conc = Except.ok (l, none))
    (hp : resolvePath E dictPath = Except.ok p) (ho : E.Open p = Except.ok file) :
    ∃ mapPos, loadMapPos E tn tl = Except.ok mapPos ∧
      (∀ k, (l.dict k).isSome = true →
        ∃ text ∈ file.lines, ∃ w lm t rest, Split text ' ' = w :: lm :: t :: rest ∧
          k = w ++ " " ++ filedPos mapPos t) ∧
      (tn = "" →
        ∀ (pre post : List String) (text w lm t : String) (rest : List String),
          file.lines = pre ++ text :: post → Split text ' ' = w :: lm :: t :: rest →
          (∀ text' ∈ post, ∀ e ∈ fieldsOf none text', ¬ (e.1 = w ∧ e.2.2 = t)) →
          E.ToLower w = w → E.ToUpper t = t → lm ≠ "" →
          l.Lemma E w t = ⟨[Event.lookup (w ++ " " ++ t)], Except.ok (lm, true, none)⟩) := by
  obtain ⟨hld, -, -, hsf, hpf, -, -, -, -, -⟩ := Build_ok_inv hb
  obtain ⟨-, mapPos, hm, -, hd⟩ := loadDict_ok_inv E dictPath tn tl p file l.dict hp ho hld
  refine ⟨mapPos, hm, ?_, ?_⟩
  · intro k hk
    rw [hd] at hk
    obtain ⟨v, hv⟩ := storeOf_key_mem _ k hk
    simp only [List.mem_filterMap] at hv
    obtain ⟨text, ht, he⟩ := hv
    rw [entryOf_eq_fieldsOf] at he
    cases hf : fieldsOf mapPos text with
    | none => simp [hf] at he
    | some e =>
      obtain ⟨w, lm, t, rest, hsp, rfl⟩ := fieldsOf_some_inv mapPos text e hf
      simp only [hf, Option.map_some', Option.some.injEq, Prod.mk.injEq] at he
      exact ⟨text, ht, w, lm, t, rest, hsp, he.1.symm⟩
  · intro hn pre post text w lm t rest hl hsp hpost hw ht hlm
    subst hn
    have hm2 := loadMapPos_empty E tl
    rw [hm] at hm2
    have hmn : mapPos = none := by simpa using hm2
    subst hmn
    have hst := (store_at_line none (fun f hf => by simp at hf) pre post text w lm t
      (fieldsOf_of_Split none text w lm t rest hsp)).2 hpost
    rw [← hl, ← hd] at hst
    have hcfg : ¬ (l.stemmerFallback = false ∧ l.spellerFallback = true) := by simp [hpf]
    have hkey : l.dict (E.ToLower w ++ " " ++ E.ToUpper t) = some lm := by rw [hw, ht]; exact hst
    have := Lemma_hit_nonempty E l w t lm hcfg hkey hlm
    rw [hw, ht] at this
    exact this

/-- C9 amended, at a concrete input: the last line of the demo file,
"caresses caress NNS", is retrieved by `Lemma("caresses", "NNS")`, and the key
"Apple nn" of the store is the sixth line as written. -/
theorem store_keys_verbatim_and_retrieval_witness :
    (demoLemmingo false false).Lemma demoEnv "caresses" "NNS" =
      ⟨[Event.lookup "caresses NNS"], Except.ok ("caress", true, none)⟩ ∧
    ∃ text ∈ demoFile.lines, ∃ w lm t rest, Split text ' ' = w :: lm :: t :: rest ∧
      "Apple nn" = w ++ " " ++ t := by
  obtain ⟨mapPos, hm, h1, h2⟩ := store_keys_verbatim_and_retrieval demoEnv "/dicts/en.lmm"
    "english" "en" "" "" "/dicts/en.lmm" false demoFile (demoLemmingo false false)
    (demo_build false false) rfl rfl
  have hmn : mapPos = none := by
    have := loadMapPos_empty demoEnv ""
    rw [hm] at this
    simpa using this
  subst hmn
  refine ⟨?_, ?_⟩
  · exact h2 rfl ["are art VBP", "am be VBP", "are be VBP", "stranger strange JJR",
      "laboratory  NN", "Apple apple nn"] [] "caresses caress NNS" "caresses" "caress" "NNS" []
      rfl rfl (by decide) (by decide) (by decide) (by decide)
  · exact h1 "Apple nn" rfl

/-- C10. Last-write-wins: a dictionary file that opens, scans without error and
has at least three space-separated fields on every line loads without error,
duplicates or not. For every pair `(w, p)` the store maps `w ++ " " ++ p` to the
lemma field of the last line whose word field is `w` and whose (normalized) POS
is `p`, and has no entry there when no line has that pair. The keys of two lines
are equal exactly when their words are equal and their POS are equal. -/
theorem last_write_wins (E : Env) (dictPath tn tl p : String) (file : File)
    (mapPos : Option (String → String × Bool))
    (hp : resolvePath E dictPath = Except.ok p) (ho : E.Open p = Except.ok file)
    (hs : file.scanErr = none) (hm : loadMapPos E tn tl = Except.ok mapPos)
    (h3 : ∀ text ∈ file.lines, 3 ≤ (Split text ' ').length) :
    ∃ d, loadDict E dictPath tn tl = Except.ok (d, none) ∧
      (∀ w p, d (w ++ " " ++ p) = lastLemma mapPos file.lines w p) ∧
      (∀ w p, (∀ text ∈ file.lines, ∀ e ∈ fieldsOf mapPos text, ¬ (e.1 = w ∧ e.2.2 = p)) →
        d (w ++ " " ++ p) = none) ∧
      (∀ text1 ∈ file.lines, ∀ text2 ∈ file.lines,
        ∀ e1 ∈ fieldsOf mapPos text1, ∀ e2 ∈ fieldsOf mapPos text2,
          (e1.1 ++ " " ++ e1.2.2 = e2.1 ++ " " ++ e2.2.2 ↔ e1.1 = e2.1 ∧ e1.2.2 = e2.2.2)) := by
  have hns := loadMapPos_no_space E tn tl mapPos hm
  refine ⟨_, loadDict_ok E dictPath tn tl p file mapPos hp ho hs hm h3, ?_, ?_, ?_⟩
  · intro w q
    exact store_eq_lastLemma mapPos hns file.lines w q
  · intro w q hnone
    rw [store_eq_lastLemma mapPos hns file.lines w q, lastLemma]
    have : (file.lines.filterMap (fieldsOf mapPos)).reverse.find?
        (fun e => decide (e.1 = w ∧ e.2.2 = q)) = none := by
      rw [List.find?_eq_none]
      intro e he
      simp only [List.mem_reverse, List.mem_filterMap] at he
      obtain ⟨text, ht, hf⟩ := he
      simpa using hnone text ht e hf
    rw [this]
    rfl
  · intro text1 _ text2 _ e1 he1 e2 _
    obtain ⟨h1, h2⟩ := fieldsOf_no_space mapPos hns text1 e1.1 e1.2.1 e1.2.2 he1
    exact key_inj e1.1 e1.2.2 e2.1 e2.2.2 h1 h2

/-- C10 at a concrete input: in the demo file "are art VBP" is followed by
"are be VBP"; the store loaded without a tagset maps "are VBP" to "be", and has
nothing under "quadrillion NN". -/
theorem last_write_wins_witness :
    ∃ d, loadDict demoEnv "/dicts/en.lmm" "" "" = Except.ok (d, none) ∧
      d "are VBP" = some "be" ∧ d "quadrillion NN" = none := by
  obtain ⟨d, hd, h1, h2, -⟩ := last_write_wins demoEnv "/dicts/en.lmm" "" "" "/dicts/en.lmm"
    demoFile none rfl rfl rfl rfl (by decide)
  exact ⟨d, hd, (h1 "are" "VBP").trans (by decide), h2 "quadrillion" "NN" (by decide)⟩

/-- C11. `MapPos(tagsetName, languageTag)` panics exactly when `tagsetName` with
the base language of `languageTag` is neither (penn, en) nor (freeling, en), the
two registered pairs, and returns a function exactly when it is one of them.
The function it returns sends a tag to `(v, true)` when the table of the pair has
the entry `(tag, v)` and to `("", false)` when the table has no entry for that
very string. -/
theorem MapPos_fails_iff_unregistered (E : Env) (tn lt : String) :
    ((∃ msg, tagset.MapPos E tn lt = Except.error (Panic.err msg)) ↔
      ¬ ((tn = "penn" ∨ tn = "freeling") ∧ E.langBase lt = "en")) ∧
    ((∃ f, tagset.MapPos E tn lt = Except.ok f) ↔
      ((tn = "penn" ∨ tn = "freeling") ∧ E.langBase lt = "en")) ∧
    (∀ f, tagset.MapPos E tn lt = Except.ok f →
      ∃ tbl, ((tn = "penn" ∧ tbl = tagset.pennEn) ∨ (tn = "freeling" ∧ tbl = tagset.freelingEn)) ∧
        ∀ t, (∀ v, (t, v) ∈ tbl → f t = (v, true)) ∧
          ((∀ v, (t, v) ∉ tbl) → f t = ("", false))) := by
  rw [MapPos_eq]
  by_cases hp : tn = "penn" ∧ E.langBase lt = "en"
  · rw [if_pos hp]
    have hreg : (tn = "penn" ∨ tn = "freeling") ∧ E.langBase lt = "en" := ⟨Or.inl hp.1, hp.2⟩
    refine ⟨⟨?_, fun h => absurd hreg h⟩, ⟨fun _ => hreg, fun _ => ⟨_, rfl⟩⟩, ?_⟩
    · rintro ⟨msg, h⟩
      cases h
    · intro f hf
      injection hf with hf
      subst hf
      exact ⟨tagset.pennEn, Or.inl ⟨hp.1, rfl⟩, fun t => lookupIn_spec _ pennEn_keys_nodup t⟩
  · rw [if_neg hp]
    by_cases hf : tn = "freeling" ∧ E.langBase lt = "en"
    · rw [if_pos hf]
      have hreg : (tn = "penn" ∨ tn = "freeling") ∧ E.langBase lt = "en" :=
        ⟨Or.inr hf.1, hf.2⟩
      refine ⟨⟨?_, fun h => absurd hreg h⟩, ⟨fun _ => hreg, fun _ => ⟨_, rfl⟩⟩, ?_⟩
      · rintro ⟨msg, h⟩
        cases h
      · intro f hf'
        injection hf' with hf'
        subst hf'
        exact ⟨tagset.freelingEn, Or.inr ⟨hf.1, rfl⟩,
          fun t => lookupIn_spec _ freelingEn_keys_nodup t⟩
    · rw [if_neg hf]
      have hno : ¬ ((tn = "penn" ∨ tn = "freeling") ∧ E.langBase lt = "en") := by
        rintro ⟨h1 | h1, h2⟩
        · exact hp ⟨h1, h2⟩
        · exact hf ⟨h1, h2⟩
      refine ⟨⟨fun _ => hno, fun _ => ⟨_, rfl⟩⟩, ⟨?_, fun h => absurd h hno⟩, ?_⟩
      · rintro ⟨f, h⟩
        cases h
      · intro f h
        cases h

/-- C11 at concrete inputs: in the demo world `MapPos("freeling", "en-GB")` returns
a function that finds "NN" as "NOUN" and does not find "nn", and
`MapPos("freeling", "pt-BR")` panics. -/
theorem MapPos_fails_iff_unregistered_witness :
    (∃ f, tagset.MapPos demoEnv "freeling" "en-GB" = Except.ok f ∧
      f "NN" = ("NOUN", true) ∧ f "nn" = ("", false)) ∧
    (∃ msg, tagset.MapPos demoEnv "freeling" "pt-BR" = Except.error (Panic.err msg)) := by
  have h1 := MapPos_fails_iff_unregistered demoEnv "freeling" "en-GB"
  have h2 := MapPos_fails_iff_unregistered demoEnv "freeling" "pt-BR"
  obtain ⟨f, hf⟩ := h1.2.1.mpr ⟨Or.inr rfl, by decide⟩
  obtain ⟨tbl, htbl, hspec⟩ := h1.2.2 f hf
  have ht : tbl = tagset.freelingEn := by
    rcases htbl with ⟨h, -⟩ | ⟨-, h⟩
    · exact absurd h (by decide)
    · exact h
  subst ht
  have hnn : ∀ v, ("nn", v) ∉ tagset.freelingEn := by
    intro v hv
    have h3 := (lookup_eq_some_iff_mem _ freelingEn_keys_nodup "nn" v).mpr hv
    have h4 : tagset.freelingEn.lookup "nn" = none := by decide
    rw [h4] at h3
    cases h3
  refine ⟨⟨f, hf, (hspec "NN").1 "NOUN" (by decide), (hspec "nn").2 hnn⟩, ?_⟩
  exact h2.1.mpr (by decide)

/-- C12. `MapPos("wordnet", "en-GB")` panics, in every world: no table is
registered under a name that starts with "wordnet". In the demo world the panic
value is the error "Tagset mapping for `wordnet_en` was not found!". -/
theorem MapPos_wordnet_panics :
    (∀ E : Env, ∃ msg, tagset.MapPos E "wordnet" "en-GB" = Except.error (Panic.err msg)) ∧
    tagset.MapPos demoEnv "wordnet" "en-GB" =
      Except.error (Panic.err "Tagset mapping for `wordnet_en` was not found!") := by
  refine ⟨fun E => ?_, rfl⟩
  rw [MapPos_eq]
  simp

/-- C13. A dictionary file that cannot be opened (the path does not resolve, or
`Open` fails on the resolved path) makes `Build` and `New` return an instance
with a non-nil error, without a panic, for every tagset name and language and
every setting of the flags, registered tagset or not. The tagset is resolved
only after the file has been opened: with a file that opens, a non-empty name
that is not registered for the language makes `Build` panic. -/
theorem unopenable_dictionary_is_an_error (E : Env) (dictPath sl pl tn tl : String)
    (sf pf conc : Bool)
    (hopen : ∀ p, resolvePath E dictPath = Except.ok p → ∃ e, E.Open p = Except.error e) :
    (∃ l e, Build E dictPath sf sl pf pl tn tl conc = Except.ok (l, some e)) ∧
    (∀ langTag, ∃ l e, New E dictPath langTag tn sf pf conc = Except.ok (l, some e)) ∧
    (∀ (other p : String) (file : File), resolvePath E other = Except.ok p →
      E.Open p = Except.ok file → tn ≠ "" →
      ¬ ((tn = "penn" ∨ tn = "freeling") ∧ E.langBase tl = "en") →
      ∃ msg, Build E other sf sl pf pl tn tl conc = Except.error (Panic.err msg)) := by
  refine ⟨?_, ?_, ?_⟩
  · obtain ⟨e, he⟩ := loadDict_unopenable E dictPath tn tl hopen
    exact ⟨⟨Dict.empty, sl, pl, none, none, sf, pf, conc⟩, e, by simp [Build, he]⟩
  · intro langTag
    obtain ⟨e, he⟩ := loadDict_unopenable E dictPath tn (E.langBase langTag) hopen
    exact ⟨⟨Dict.empty, E.ToLower (E.langName langTag), langTag, none, none, sf, pf, conc⟩, e,
      by simp [New, Build, he]⟩
  · intro other p file hp ho hn hreg
    obtain ⟨msg, hmsg⟩ := loadDict_unregistered E other tn tl p file hp ho hn hreg
    exact ⟨msg, by simp [Build, hmsg]⟩

/-- C13 at concrete inputs: in the demo world, `New` with the FreeLing tagset and
"pt-BR" returns an error for the missing relative path "uk.lmm" and for the
missing absolute path "/tmp/en.lmm", and panics for the file that exists. -/
theorem unopenable_dictionary_is_an_error_witness :
    (∃ l e, New demoEnv "uk.lmm" "pt-BR" "freeling" false false false = Except.ok (l, some e)) ∧
    (∃ l e, New demoEnv "/tmp/en.lmm" "pt-BR" "freeling" false false false
      = Except.ok (l, some e)) ∧
    (∃ msg, Build demoEnv "/dicts/en.lmm" false "" false "" "freeling" "pt" false
      = Except.error (Panic.err msg)) := by
  have h1 : ∀ p, resolvePath demoEnv "uk.lmm" = Except.ok p →
      ∃ e, demoEnv.Open p = Except.error e := by
    intro p hp
    have h : resolvePath demoEnv "uk.lmm" = Except.ok "/home/user/.lemmingo/uk.lmm" := rfl
    rw [h] at hp
    injection hp with hp
    subst hp
    exact ⟨_, rfl⟩
  have h2 : ∀ p, resolvePath demoEnv "/tmp/en.lmm" = Except.ok p →
      ∃ e, demoEnv.Open p = Except.error e := by
    intro p hp
    have h : resolvePath demoEnv "/tmp/en.lmm" = Except.ok "/tmp/en.lmm" := rfl
    rw [h] at hp
    injection hp with hp
    subst hp
    exact ⟨_, rfl⟩
  exact ⟨(unopenable_dictionary_is_an_error demoEnv "uk.lmm" "" "" "freeling" "pt"
      false false false h1).2.1 "pt-BR",
    (unopenable_dictionary_is_an_error demoEnv "/tmp/en.lmm" "" "" "freeling" "pt"
      false false false h2).2.1 "pt-BR",
    (unopenable_dictionary_is_an_error demoEnv "/tmp/en.lmm" "" "" "freeling" "pt"
      false false false h2).2.2 "/dicts/en.lmm" "/dicts/en.lmm" demoFile rfl rfl
      (by decide) (by decide)⟩

/-- C14, as the code has it. The instance `Build` returns in the demo world with
the stemmer fallback enabled and the language "english" stems "teenager" to
"teenag" there. At a later moment, when `snowball.New` fails inside the work
function for that same language, `Stem` and `Lemma` on that instance reach the
worker and panic on the nil stemmer; neither returns an error value. -/
theorem backend_failure_is_a_panic :
    Build demoEnv "/dicts/en.lmm" true "english" false "en" "" "" false
      = Except.ok (demoLemmingo true false, none) ∧
    (demoLemmingo true false).stemmerFallback = true ∧
    ((demoLemmingo true false).inWorld demoEnv).Stem "teenager" =
      ⟨[Event.stem "english" "teenager"], Except.ok ("teenag", none)⟩ ∧
    (loadStemmer demoEnvExhausted (demoLemmingo true false).stemmerLang).1.isNone = true ∧
    ((demoLemmingo true false).inWorld demoEnvExhausted).Stem "teenager" =
      ⟨[Event.stem "english" "teenager"], Except.error Panic.nilDeref⟩ ∧
    ((demoLemmingo true false).inWorld demoEnvExhausted).Lemma demoEnvExhausted
        "Teenager" "nonsense" =
      ⟨[Event.lookup "teenager NONSENSE", Event.stem "english" "teenager"],
        Except.error Panic.nilDeref⟩ := by
  refine ⟨rfl, rfl, rfl, rfl, rfl, rfl⟩

/-- C14, amended. With the stemmer fallback enabled no call returns an error:
whenever `Stem` returns, on any instance, its error is nil, and so is the error
of `Lemma` on any instance with the stemmer enabled; on an instance returned by
`Build` with the stemmer enabled, in the world it was built in, both `Stem` and
`Lemma` do return, for every word and tag; and for a stemmer language whose
backend cannot be loaded `Build`
on the same dictionary does not return an instance at all, it panics with the
load error. -/
theorem no_error_with_stemmer (E : Env) (dictPath sl pl tn tl : String) (pf conc : Bool)
    (l : Lemmingo) (hb : Build E dictPath true sl pf pl tn tl conc = Except.ok (l, none)) :
    (∀ (l' : Lemmingo) (word s : String) (e : GoError),
      (l'.Stem word).out = Except.ok (s, e) → e = none) ∧
    (∀ (l' : Lemmingo) (word pos s : String) (f : Bool) (e : GoError),
      l'.stemmerFallback = true → (l'.Lemma E word pos).out = Except.ok (s, f, e) → e = none) ∧
    (∀ word, ∃ s, (l.Stem word).out = Except.ok (s, none)) ∧
    (∀ word pos, ∃ s f, (l.Lemma E word pos).out = Except.ok (s, f, none)) ∧
    (∀ (sl' msg pl' : String) (pf' conc' : Bool), E.snowballNew sl' = Except.error msg →
      Build E dictPath true sl' pf' pl' tn tl conc' = Except.error (Panic.err msg)) := by
  refine ⟨Stem_error_nil, fun l' word pos s f e hs h =>
    Lemma_error_nil_with_stemmer E l' word pos s f e hs h, ?_,
    fun word pos => Lemma_with_stemmer_returns E dictPath sl pl tn tl pf conc l word pos hb, ?_⟩
  · intro word
    obtain ⟨st, -, h1, h2⟩ := Stem_with_stemmer E dictPath sl pl tn tl pf conc l word hb
    cases pf with
    | false => exact ⟨_, by rw [h1 rfl]⟩
    | true =>
      obtain ⟨sp, -, h3⟩ := h2 rfl
      exact ⟨_, by rw [h3]⟩
  · intro sl' msg pl' pf' conc' hbk
    have hld := (Build_ok_inv hb).1
    simp [Build, hld, loadStemmer, hbk]

/-- C14 amended, at a concrete input: the demo instance with both fallbacks
returns "teenage" with a nil error from `Stem("teenager")` and from
`Lemma("teenager", "NONSENSE")`, and `Build` with the stemmer language "tokipona"
panics. -/
theorem no_error_with_stemmer_witness :
    (∃ s, ((demoLemmingo true true).Stem "teenager").out = Except.ok (s, none)) ∧
    (∃ s f, ((demoLemmingo true true).Lemma demoEnv "teenager" "NONSENSE").out
      = Except.ok (s, f, none)) ∧
    ((demoLemmingo true true).Stem "teenager").out = Except.ok ("teenage", none) ∧
    Build demoEnv "/dicts/en.lmm" true "tokipona" false "" "" "" false
      = Except.error (Panic.err "unknown stemmer language") :=
  ⟨(no_error_with_stemmer demoEnv "/dicts/en.lmm" "english" "en" "" "" true false
      (demoLemmingo true true) (demo_build true true)).2.2.1 "teenager",
   (no_error_with_stemmer demoEnv "/dicts/en.lmm" "english" "en" "" "" true false
      (demoLemmingo true true) (demo_build true true)).2.2.2.1 "teenager" "NONSENSE",
   rfl,
   (no_error_with_stemmer demoEnv "/dicts/en.lmm" "english" "en" "" "" true false
      (demoLemmingo true true) (demo_build true true)).2.2.2.2 "tokipona"
      "unknown stemmer language" "" false false rfl⟩

/-- C15. Pool invariant after construction: on an instance `Build` returns
without error, the stemmer pool exists exactly when `stemmerFallback` was passed
as true and the speller pool exactly when `spellerFallback` was; a pool that
exists has size 1 when `concurrent` is false and size `NumCPU` when it is true;
and the five configuration fields hold the values passed in. -/
theorem pool_invariant (E : Env) (dictPath sl pl tn tl : String) (sf pf conc : Bool)
    (l : Lemmingo) (hb : Build E dictPath sf sl pf pl tn tl conc = Except.ok (l, none)) :
    (l.stemmerPool.isSome = true ↔ sf = true) ∧
    (l.spellerPool.isSome = true ↔ pf = true) ∧
    (∀ p, l.stemmerPool = some p ∨ l.spellerPool = some p →
      (conc = false → p.size = 1) ∧ (conc = true → p.size = E.NumCPU)) ∧
    l.stemmerFallback = sf ∧ l.spellerFallback = pf ∧ l.concurrent = conc ∧
    l.stemmerLang = sl ∧ l.spellerLang = pl := by
  obtain ⟨-, hsl, hpl, hsf, hpf, hc, hst, hsn, hsp, hpn⟩ := Build_ok_inv hb
  refine ⟨?_, ?_, ?_, hsf, hpf, hc, hsl, hpl⟩
  · cases sf with
    | false => simp [hsn rfl]
    | true =>
      obtain ⟨st, -, h⟩ := hst rfl
      simp [h]
  · cases pf with
    | false => simp [hpn rfl]
    | true =>
      obtain ⟨sp, -, h⟩ := hsp rfl
      simp [h]
  · intro p hp
    have hsize : p.size = if conc = true then E.NumCPU else 1 := by
      rcases hp with hp | hp
      · cases sf with
        | false => rw [hsn rfl] at hp; cases hp
        | true =>
          obtain ⟨st, -, h⟩ := hst rfl
          rw [h] at hp
          injection hp with hp
          rw [← hp]
      · cases pf with
        | false => rw [hpn rfl] at hp; cases hp
        | true =>
          obtain ⟨sp, -, h⟩ := hsp rfl
          rw [h] at hp
          injection hp with hp
          rw [← hp]
    constructor
    · intro h; rw [hsize, h]; rfl
    · intro h; rw [hsize, h]; rfl

/-- C15 at concrete inputs: the concurrent demo instance has both pools, of size
4 (the `NumCPU` of the demo world); the demo instance built with the stemmer
only and `concurrent` false has a stemmer pool of size 1 and no speller pool. -/
theorem pool_invariant_witness :
    (demoConcurrent.stemmerPool.isSome = true ∧ demoConcurrent.spellerPool.isSome = true ∧
      ∀ p, demoConcurrent.stemmerPool = some p ∨ demoConcurrent.spellerPool = some p →
        p.size = 4) ∧
    ((demoLemmingo true false).stemmerPool.isSome = true ∧
      ¬ (demoLemmingo true false).spellerPool.isSome = true ∧
      ∀ p, (demoLemmingo true false).stemmerPool = some p → p.size = 1) := by
  have h1 := pool_invariant demoEnv "/dicts/en.lmm" "english" "en" "" "" true true true
    demoConcurrent demoConcurrent_build
  have h2 := pool_invariant demoEnv "/dicts/en.lmm" "english" "en" "" "" true false false
    (demoLemmingo true false) (demo_build true false)
  refine ⟨⟨h1.1.mpr rfl, h1.2.1.mpr rfl, fun p hp => (h1.2.2.1 p hp).2 rfl⟩,
    ⟨h2.1.mpr rfl, fun h => absurd (h2.2.1.mp h) (by decide),
      fun p hp => (h2.2.2.1 p (Or.inl hp)).1 rfl⟩⟩

/-- C17. `Close` on the instance built without fallbacks panics on the nil stemmer
pool and releases nothing; built with one fallback it releases that pool and
panics on the other, nil one; only with both fallbacks does it return, having
released both pools. -/
theorem Close_panics_without_both_pools :
    Build demoEnv "/dicts/en.lmm" false "english" false "en" "" "" false
      = Except.ok (demoLemmingo false false, none) ∧
    (demoLemmingo false false).Close = ([], Except.error Panic.nilDeref) ∧
    (demoLemmingo true false).Close = ([PoolKind.stemmer], Except.error Panic.nilDeref) ∧
    (demoLemmingo false true).Close = ([PoolKind.speller], Except.error Panic.nilDeref) ∧
    (demoLemmingo true true).Close = ([PoolKind.stemmer, PoolKind.speller], Except.ok ()) := by
  refine ⟨rfl, rfl, rfl, rfl, rfl⟩

/-- C18. Line-parsing safety: a line splits at single spaces into one more field
than it has spaces, so the loop body of `loadDict` reads fields 0, 1 and 2 in
range exactly when the line has at least two spaces, and panics with an index
out of range otherwise. It takes the first three fields by position and ignores
any further ones. A file that opens, scans without error and has two spaces on
every line loads into a store without error; a file with a line of fewer than
two spaces (an empty line, say) makes `loadDict`, and `Build`, panic: there is
neither a store nor an error value. -/
theorem line_parsing_safety (E : Env) (dictPath tn tl p : String) (file : File)
    (mapPos : Option (String → String × Bool))
    (hp : resolvePath E dictPath = Except.ok p) (ho : E.Open p = Except.ok file)
    (hm : loadMapPos E tn tl = Except.ok mapPos) :
    (∀ text, (Split text ' ').length = text.data.count ' ' + 1) ∧
    (∀ text d, (∃ d', loadLine mapPos d text = Except.ok d') ↔ 2 ≤ text.data.count ' ') ∧
    (∀ text d, text.data.count ' ' < 2 →
      loadLine mapPos d text = Except.error Panic.indexOutOfRange) ∧
    (∀ text w lm t rest d, Split text ' ' = w :: lm :: t :: rest →
      loadLine mapPos d text = Except.ok (d.set (w ++ " " ++ filedPos mapPos t) lm)) ∧
    ((∀ text ∈ file.lines, 2 ≤ text.data.count ' ') → file.scanErr = none →
      ∃ d, loadDict E dictPath tn tl = Except.ok (d, none)) ∧
    ((∃ text ∈ file.lines, text.data.count ' ' < 2) →
      loadDict E dictPath tn tl = Except.error Panic.indexOutOfRange ∧
      ∀ sf sl pf pl conc,
        Build E dictPath sf sl pf pl tn tl conc = Except.error Panic.indexOutOfRange) := by
  have hnone : ∀ text, text.data.count ' ' < 2 → entryOf mapPos text = none := by
    intro text hlt
    cases he : entryOf mapPos text with
    | none => rfl
    | some e =>
      have := (entryOf_isSome_iff mapPos text).mp (by simp [he])
      omega
  refine ⟨fun text => Split_length text ' ', ?_, ?_, ?_, ?_, ?_⟩
  · intro text d
    rw [← entryOf_isSome_iff mapPos text]
    unfold loadLine
    cases he : entryOf mapPos text with
    | none => simp
    | some e => simp
  · intro text d hlt
    simp [loadLine, hnone text hlt]
  · intro text w lm t rest d hs
    have he : entryOf mapPos text = some (w ++ " " ++ filedPos mapPos t, lm) := by
      rw [entryOf_eq_fieldsOf, fieldsOf_of_Split mapPos text w lm t rest hs]
      rfl
    simp [loadLine, he]
  · intro hall hs
    refine ⟨_, loadDict_ok E dictPath tn tl p file mapPos hp ho hs hm ?_⟩
    intro text ht
    rw [Split_length]
    have := hall text ht
    omega
  · rintro ⟨text, ht, hlt⟩
    have hl := loadLines_short_line mapPos file.lines Dict.empty ⟨text, ht, hnone text hlt⟩
    have hld : loadDict E dictPath tn tl = Except.error Panic.indexOutOfRange := by
      simp [loadDict, hp, ho, hm, hl]
    refine ⟨hld, fun sf sl pf pl conc => ?_⟩
    simp [Build, hld]

/-- C18 at concrete inputs: the demo file loads; a file whose second line is
empty makes `loadDict` panic; the line "a b c d e" is stored as lemma "b" under
"a c", its fourth and fifth fields ignored. -/
theorem line_parsing_safety_witness :
    (∃ d, loadDict demoEnv "/dicts/en.lmm" "" "" = Except.ok (d, none)) ∧
    loadDict demoEnvShort "/dicts/short.lmm" "" "" = Except.error Panic.indexOutOfRange ∧
    loadLine none Dict.empty "a b c d e" = Except.ok (Dict.empty.set "a c" "b") ∧
    loadLine none Dict.empty "" = Except.error Panic.indexOutOfRange := by
  have h1 := line_parsing_safety demoEnv "/dicts/en.lmm" "" "" "/dicts/en.lmm" demoFile none
    rfl rfl rfl
  have h2 := line_parsing_safety demoEnvShort "/dicts/short.lmm" "" "" "/dicts/short.lmm"
    ⟨["am be VBP", "", "are be VBP"], none⟩ none rfl rfl rfl
  refine ⟨h1.2.2.2.2.1 (by decide) rfl, (h2.2.2.2.2.2 ⟨"", by decide, by decide⟩).1, ?_, ?_⟩
  · exact h1.2.2.2.1 "a b c d e" "a" "b" "c" ["d", "e"] Dict.empty (by decide)
  · exact h1.2.2.1 "" Dict.empty (by decide)

/-- C19. Universal Tagset codomain: every value of `pennEn` and every value of
`freelingEn` is one of the twelve Universal Part-of-Speech tags; hence whatever a
function returned by `MapPos` finds is one of the twelve, is not empty, has no
lower-case letter and is left alone by upper-casing. -/
theorem universal_codomain (E : Env) (tn lt t v : String) (f : String → String × Bool)
    (hf : tagset.MapPos E tn lt = Except.ok f) (hv : f t = (v, true)) :
    (∀ u ∈ tagset.pennEn.map Prod.snd, u ∈ tagset.universalTags) ∧
    (∀ u ∈ tagset.freelingEn.map Prod.snd, u ∈ tagset.universalTags) ∧
    v ∈ tagset.universalTags ∧ v ≠ "" ∧ asciiUpper v = v ∧ ∀ c ∈ v.data, c.isLower = false := by
  refine ⟨pennEn_values_universal, freelingEn_values_universal, ?_⟩
  obtain ⟨tbl, htbl, rfl⟩ := MapPos_inv E tn lt f hf
  have hl : tbl.lookup t = some v := by
    simp only [tagset.lookupIn, Prod.mk.injEq] at hv
    cases hlk : tbl.lookup t with
    | none => simp [hlk] at hv
    | some u =>
      simp only [hlk, Option.getD_some] at hv
      rw [hv.1]
  have huni : v ∈ tagset.universalTags := by
    rcases tagsetMapping_table _ _ _ htbl with rfl | rfl
    · have hmem := (lookup_eq_some_iff_mem _ pennEn_keys_nodup t v).mp hl
      exact pennEn_values_universal v (List.mem_map.mpr ⟨(t, v), hmem, rfl⟩)
    · have hmem := (lookup_eq_some_iff_mem _ freelingEn_keys_nodup t v).mp hl
      exact freelingEn_values_universal v (List.mem_map.mpr ⟨(t, v), hmem, rfl⟩)
  exact ⟨huni, universalTags_upper v huni⟩

/-- C19 at a concrete input: under the Penn tagset of the demo world "NN" is
found as "NOUN". -/
theorem universal_codomain_witness :
    "NOUN" ∈ tagset.universalTags ∧ ("NOUN" : String) ≠ "" ∧ asciiUpper "NOUN" = "NOUN" ∧
      ∀ c ∈ ("NOUN" : String).data, c.isLower = false :=
  (universal_codomain demoEnv "penn" "en-US" "NN" "NOUN" (tagset.lookupIn tagset.pennEn)
    rfl rfl).2.2

/-- C20. The two English tables agree: a tag that both `pennEn` and `freelingEn`
have is mapped to the same universal tag by both. So when one dictionary file is
loaded under the tagset "penn" and under the tagset "freeling" (for a language
whose base is "en"), both loads succeed and every line whose tag both tables
have is stored under the same key in the two stores. -/
theorem english_tables_agree (E : Env) (dictPath tl p : String) (file : File)
    (hp : resolvePath E dictPath = Except.ok p) (ho : E.Open p = Except.ok file)
    (hs : file.scanErr = none)
    (h3 : ∀ text ∈ file.lines, 3 ≤ (Split text ' ').length)
    (hen : E.langBase tl = "en") :
    (∀ t v1 v2, (t, v1) ∈ tagset.pennEn → (t, v2) ∈ tagset.freelingEn → v1 = v2) ∧
    ∃ d1 d2, loadDict E dictPath "penn" tl = Except.ok (d1, none) ∧
      loadDict E dictPath "freeling" tl = Except.ok (d2, none) ∧
      ∀ text ∈ file.lines, ∀ w lm t rest, Split text ' ' = w :: lm :: t :: rest →
        ∀ v1 v2, (t, v1) ∈ tagset.pennEn → (t, v2) ∈ tagset.freelingEn →
          entryOf (some (tagset.lookupIn tagset.pennEn)) text = some (w ++ " " ++ v1, lm) ∧
          entryOf (some (tagset.lookupIn tagset.freelingEn)) text = some (w ++ " " ++ v1, lm) ∧
          (d1 (w ++ " " ++ v1)).isSome = true ∧ (d2 (w ++ " " ++ v1)).isSome = true := by
  have hagree : ∀ t v1 v2, (t, v1) ∈ tagset.pennEn → (t, v2) ∈ tagset.freelingEn → v1 = v2 := by
    intro t v1 v2 h1 h2
    have hl := (lookup_eq_some_iff_mem _ freelingEn_keys_nodup t v2).mpr h2
    exact (tables_agree_on_keys (t, v1) h1 v2 hl).symm
  have hm1 := loadMapPos_penn E tl hen
  have hm2 := loadMapPos_freeling E tl hen
  refine ⟨hagree, _, _, loadDict_ok E dictPath "penn" tl p file _ hp ho hs hm1 h3,
    loadDict_ok E dictPath "freeling" tl p file _ hp ho hs hm2 h3, ?_⟩
  intro text ht w lm t rest hsp v1 v2 hv1 hv2
  have hv : v2 = v1 := (hagree t v1 v2 hv1 hv2).symm
  subst hv
  have hl1 := (lookup_eq_some_iff_mem _ pennEn_keys_nodup t v2).mpr hv1
  have hl2 := (lookup_eq_some_iff_mem _ freelingEn_keys_nodup t v2).mpr hv2
  have hf1 : fieldsOf (some (tagset.lookupIn tagset.pennEn)) text = some (w, lm, v2) := by
    rw [fieldsOf_of_Split _ text w lm t rest hsp]
    simp [filedPos, tagset.lookupIn, hl1]
  have hf2 : fieldsOf (some (tagset.lookupIn tagset.freelingEn)) text = some (w, lm, v2) := by
    rw [fieldsOf_of_Split _ text w lm t rest hsp]
    simp [filedPos, tagset.lookupIn, hl2]
  obtain ⟨pre, post, hsplit⟩ := List.append_of_mem ht
  refine ⟨by rw [entryOf_eq_fieldsOf, hf1]; rfl, by rw [entryOf_eq_fieldsOf, hf2]; rfl, ?_, ?_⟩
  · rw [hsplit]
    exact (store_at_line _ (loadMapPos_no_space E "penn" tl _ hm1) pre post text w lm v2 hf1).1
  · rw [hsplit]
    exact (store_at_line _ (loadMapPos_no_space E "freeling" tl _ hm2) pre post text w lm v2
      hf2).1

/-- C20 at a concrete input: the demo file loaded under "penn" and under
"freeling" for "en-GB" has the line "am be VBP" under "am VERB" in both stores. -/
theorem english_tables_agree_witness :
    ∃ d1 d2, loadDict demoEnv "/dicts/en.lmm" "penn" "en-GB" = Except.ok (d1, none) ∧
      loadDict demoEnv "/dicts/en.lmm" "freeling" "en-GB" = Except.ok (d2, none) ∧
      (d1 "am VERB").isSome = true ∧ (d2 "am VERB").isSome = true := by
  obtain ⟨-, d1, d2, h1, h2, h⟩ := english_tables_agree demoEnv "/dicts/en.lmm" "en-GB"
    "/dicts/en.lmm" demoFile rfl rfl rfl (by decide) (by decide)
  have hh := h "am be VBP" (by decide) "am" "be" "VBP" [] (by decide) "VERB" "VERB"
    (by decide) (by decide)
  exact ⟨d1, d2, h1, h2, hh.2.2.1, hh.2.2.2⟩

end lemmingo
